import Mathlib

/-!
Verification development for the flash-flags command-line flag parser.

The definitions below are a shallow embedding of the Go sources
(flash-flags.go, package flashflags).  Go strings are modelled as Lean
`String` (ASCII inputs, so byte indexing coincides with character
indexing); Go maps are modelled as association lists in insertion
order; in-place mutation of `*Flag` objects is modelled by replacing
the entry of the long-name table, since the short-key map of the source
stores pointers into the same objects (here it stores the long name).
Go stdlib conversion functions (strconv.Atoi, strconv.ParseBool,
strconv.ParseFloat, time.ParseDuration) are modelled as executable
Lean functions; float64 values are represented exactly as rationals
(rounding is irrelevant to every property proved here).
-/

namespace FlashFlags

/-- Model of a float64 result of strconv.ParseFloat: a finite value
(kept as an exact rational), a signed infinity, or NaN. -/
inductive FloatV where
  | finite (q : Rat)
  | inf (neg : Bool)
  | nan
deriving DecidableEq, Repr

/-- The dynamically typed value held by a flag (Go `interface\x7b\x7d`),
restricted to the six kinds the library stores. -/
inductive Value where
  | s (v : String)
  | i (v : Int)
  | b (v : Bool)
  | f (v : FloatV)
  | d (v : Int)
  | sl (v : List String)
deriving DecidableEq, Repr

/-- Model of Go strings.HasPrefix, computed on the character lists (the
position-based String.startsWith of the Lean core does not reduce
inside the kernel). -/
def goHasPfx (s pre : String) : Bool :=
  pre.data.isPrefixOf s.data

/-- Drop the first n characters (Go slice s[n:] on ASCII input). -/
def goDrop (s : String) (n : Nat) : String :=
  String.mk (s.data.drop n)

/-- Model of Go strings.ToUpper on ASCII input. -/
def goToUpper (s : String) : String :=
  String.mk (s.data.map Char.toUpper)

/-- Model of strings.ReplaceAll(s, "-", "_") (a single-character
pattern, hence a character map). -/
def goDashToUnderscore (s : String) : String :=
  String.mk (s.data.map (fun c => if c = '-' then '_' else c))

/-- Accumulate decimal digits: returns (value, digit count, rest). -/
def parseDigitsAux (acc cnt : Nat) : List Char → Nat × Nat × List Char
  | [] => (acc, cnt, [])
  | c :: rest =>
    if c.isDigit then parseDigitsAux (acc * 10 + (c.toNat - 48)) (cnt + 1) rest
    else (acc, cnt, c :: rest)

def parseDigits (l : List Char) : Nat × Nat × List Char :=
  parseDigitsAux 0 0 l

/-- Model of Go strconv.Atoi (= ParseInt(s, 10, 64)): optional sign,
one or more ASCII digits, value within the int64 range. -/
def goAtoi (s : String) : Option Int :=
  let core : List Char → Bool → Option Int := fun l neg =>
    match parseDigits l with
    | (v, cnt, rest) =>
      if cnt = 0 ∨ rest ≠ [] then none
      else
        let z : Int := if neg then -(v : Int) else (v : Int)
        if z < -(2 ^ 63) ∨ (2 ^ 63 - 1 : Int) < z then none else some z
  match s.data with
  | [] => none
  | '+' :: rest => core rest false
  | '-' :: rest => core rest true
  | l => core l false

/-- Model of Go strconv.ParseBool: the exact list of accepted literals. -/
def goParseBool (s : String) : Option Bool :=
  if s = "1" ∨ s = "t" ∨ s = "T" ∨ s = "TRUE" ∨ s = "true" ∨ s = "True" then some true
  else if s = "0" ∨ s = "f" ∨ s = "F" ∨ s = "FALSE" ∨ s = "false" ∨ s = "False" then some false
  else none

/-- 10^e for an integer exponent, as a rational. -/
def pow10 (e : Int) : Rat :=
  if 0 ≤ e then ((10 : Rat) ^ e.toNat) else 1 / ((10 : Rat) ^ (-e).toNat)

/-- Strip one leading sign character; returns (negative?, rest). -/
def stripSign : List Char → Bool × List Char
  | '+' :: rest => (false, rest)
  | '-' :: rest => (true, rest)
  | l => (false, l)

/-- Model of Go strconv.ParseFloat (decimal and exponent forms, and the
inf/infinity/nan specials; the hexadecimal-float and digit-underscore
forms of the Go grammar are elided, no property here depends on them).
The numeric value is kept exact as a rational. -/
def goParseFloat (s : String) : Option FloatV :=
  match stripSign s.data with
  | (neg, rest) =>
    let lower := String.mk (rest.map Char.toLower)
    if lower = "inf" ∨ lower = "infinity" then some (FloatV.inf neg)
    else if lower = "nan" then some FloatV.nan
    else
      match parseDigits rest with
      | (ip, nip, r1) =>
        let fracStep : Nat × Nat × List Char :=
          match r1 with
          | '.' :: r1tail => parseDigits r1tail
          | _ => (0, 0, r1)
        match fracStep with
        | (fp, nfp, r2) =>
          if nip + nfp = 0 then none
          else
            let mant : Rat := (ip : Rat) + (fp : Rat) / ((10 : Rat) ^ nfp)
            match r2 with
            | [] => some (FloatV.finite (if neg then -mant else mant))
            | e :: r3 =>
              if e = 'e' ∨ e = 'E' then
                match stripSign r3 with
                | (eneg, r4) =>
                  match parseDigits r4 with
                  | (ev, nev, r5) =>
                    if nev = 0 ∨ r5 ≠ [] then none
                    else
                      let ex : Int := if eneg then -(ev : Int) else (ev : Int)
                      some (FloatV.finite ((if neg then -mant else mant) * pow10 ex))
              else none

/-- Nanoseconds for one Go duration unit suffix, or none if unknown. -/
def durationUnitNs (u : String) : Option Nat :=
  if u = "ns" then some 1
  else if u = "us" ∨ u = "µs" ∨ u = "μs" then some 1000
  else if u = "ms" then some 1000000
  else if u = "s" then some 1000000000
  else if u = "m" then some 60000000000
  else if u = "h" then some 3600000000000
  else none

/-- Take the unit suffix of a duration component: the characters up to
the next digit or dot (mirrors the scan in time.ParseDuration). -/
def spanUnit : List Char → List Char × List Char
  | [] => ([], [])
  | c :: rest =>
    if c = '.' ∨ c.isDigit then ([], c :: rest)
    else
      match spanUnit rest with
      | (u, r) => (c :: u, r)

/-- One pass of the time.ParseDuration component loop, with fuel (each
iteration consumes at least one character, so fuel = input length
suffices; running out of fuel cannot happen on the Go-reachable path). -/
def goParseDurationLoop : Nat → List Char → Rat → Option Rat
  | 0, _, _ => none
  | _ + 1, [], acc => some acc
  | fuel + 1, l, acc =>
    match parseDigits l with
    | (v, nv, r1) =>
      let fracStep : Nat × Nat × List Char :=
        match r1 with
        | '.' :: r1tail => parseDigits r1tail
        | _ => (0, 0, r1)
      match fracStep with
      | (f, nf, r2) =>
        if nv + nf = 0 then none
        else
          match spanUnit r2 with
          | (u, r3) =>
            match durationUnitNs (String.mk u) with
            | none => none
            | some unitNs =>
              goParseDurationLoop fuel r3
                (acc + ((v : Rat) + (f : Rat) / ((10 : Rat) ^ nf)) * (unitNs : Rat))

/-- Truncate a rational toward zero (Go conversion to an integer count). -/
def ratTrunc (q : Rat) : Int :=
  if 0 ≤ q then q.floor else q.ceil

/-- Model of Go time.ParseDuration: optional sign, the special "0",
then one or more number+unit components; result in nanoseconds.
(The int64 overflow checks of the Go code are elided; no property here
depends on them.) -/
def goParseDuration (s : String) : Option Int :=
  match stripSign s.data with
  | (neg, rest) =>
    if rest = ['0'] then some 0
    else if rest = [] then none
    else
      match goParseDurationLoop (rest.length + 1) rest 0 with
      | none => none
      | some q => some (if neg then -(ratTrunc q) else ratTrunc q)

/-- The comma-splitting loop of splitByComma, rendered as structural
recursion: `acc` is the current segment (the Go code's value[start:i])
in reverse; a segment is appended only when non-empty, both at a comma
and at the end of the input. -/
def splitByCommaAux (acc : List Char) : List Char → List (List Char)
  | [] => if acc = [] then [] else [acc.reverse]
  | c :: rest =>
    if c = ',' then
      if acc = [] then splitByCommaAux [] rest
      else acc.reverse :: splitByCommaAux [] rest
    else splitByCommaAux (c :: acc) rest

/-- Model of FlagSet.splitByComma: split on commas, dropping empty
segments. -/
def splitByComma (value : String) : List String :=
  (splitByCommaAux [] value.data).map String.mk

/-- Model of FlagSet.parseStringSlice. -/
def parseStringSlice (value : String) : List String :=
  if value = "" then [] else splitByComma value

/-- One registered flag (struct Flag of the source).  The `ptr` field of
the source is an alias of `value` and is subsumed by it; `value` and
`defaultValue` are the dynamically typed cells. -/
structure Flag where
  name : String
  value : Value
  defaultValue : Value
  flagType : String
  changed : Bool
  usage : String
  shortKey : String
  validator : Option (Value → Option String)
  required : Bool
  dependencies : List String
  group : String
  envVar : String

/-- A collection of flags (struct FlagSet of the source).  `flags` is
the long-name map, `shortMap` maps a short key to the long name of the
flag it aliases (the source stores a pointer to the same Flag object).
`envPfx` is the source's envPrefix field. -/
structure FlagSet where
  flags : List (String × Flag)
  shortMap : List (String × String)
  name : String
  description : String
  version : String
  configFile : String
  configPaths : List String
  configLoaded : Bool
  envPfx : String
  enableEnvLookup : Bool

/-- Association-list lookup (Go map read). -/
def lookupA {α : Type} : List (String × α) → String → Option α
  | [], _ => none
  | (k, v) :: rest, n => if k = n then some v else lookupA rest n

/-- Replace the value stored under an existing key (models in-place
mutation of the object the Go map points to; keys are unchanged). -/
def updateA {α : Type} (l : List (String × α)) (n : String) (v : α) : List (String × α) :=
  l.map (fun p => if p.1 = n then (p.1, v) else p)

/-- Go map assignment: replace if present, append otherwise. -/
def insertA {α : Type} (l : List (String × α)) (n : String) (v : α) : List (String × α) :=
  if (lookupA l n).isSome then updateA l n v else l ++ [(n, v)]

/-- First non-none result of f over a list (the Go validation loops
return the first error; List.findSome? rendered recursively for easy
induction). -/
def findSomeA {α β : Type} (f : α → Option β) : List α → Option β
  | [] => none
  | x :: rest =>
    match f x with
    | some b => some b
    | none => findSomeA f rest

def FlagSet.lookupFlag (fs : FlagSet) (n : String) : Option Flag :=
  lookupA fs.flags n

/-- Model of FlagSet.Lookup. -/
def FlagSet.Lookup (fs : FlagSet) (n : String) : Option Flag :=
  fs.lookupFlag n

/-- Model of FlagSet.Changed. -/
def FlagSet.Changed (fs : FlagSet) (n : String) : Bool :=
  match fs.Lookup n with
  | some flag => flag.changed
  | none => false

def FlagSet.updateFlag (fs : FlagSet) (n : String) (f : Flag) : FlagSet :=
  { fs with flags := updateA fs.flags n f }

/-- Model of Flag.Validate. -/
def Flag.Validate (f : Flag) : Option String :=
  match f.validator with
  | some v => v f.value
  | none => none

/-- Model of Flag.Reset: value back to the default, changed cleared. -/
def Flag.Reset (f : Flag) : Flag :=
  { f with value := f.defaultValue, changed := false }

/-- Model of FlagSet.Reset. -/
def FlagSet.Reset (fs : FlagSet) : FlagSet :=
  { fs with flags := fs.flags.map (fun p => (p.1, p.2.Reset)) }

/-! ### Type-specific value setters (CLI/env path) -/

def setStringValue (flag : Flag) (value : String) : Except String Flag :=
  Except.ok { flag with value := Value.s value }

def setIntValue (flag : Flag) (value nm : String) : Except String Flag :=
  match goAtoi value with
  | none => Except.error ("invalid int value for flag --" ++ nm ++ ": " ++ value)
  | some intVal => Except.ok { flag with value := Value.i intVal }

def setBoolValue (flag : Flag) (value nm : String) : Except String Flag :=
  match goParseBool value with
  | none => Except.error ("invalid bool value for flag --" ++ nm ++ ": " ++ value)
  | some boolVal => Except.ok { flag with value := Value.b boolVal }

def setDurationValue (flag : Flag) (value nm : String) : Except String Flag :=
  match goParseDuration value with
  | none => Except.error ("invalid duration value for flag --" ++ nm ++ ": " ++ value)
  | some durVal => Except.ok { flag with value := Value.d durVal }

def setFloat64Value (flag : Flag) (value nm : String) : Except String Flag :=
  match goParseFloat value with
  | none => Except.error ("invalid float64 value for flag --" ++ nm ++ ": " ++ value)
  | some floatVal => Except.ok { flag with value := Value.f floatVal }

def setStringSliceValue (flag : Flag) (value : String) : Except String Flag :=
  Except.ok { flag with value := Value.sl (parseStringSlice value) }

/-- Model of FlagSet.setFlagValueByType: dispatch on the flag kind. -/
def setFlagValueByType (flag : Flag) (value nm : String) : Except String Flag :=
  if flag.flagType = "string" then setStringValue flag value
  else if flag.flagType = "int" then setIntValue flag value nm
  else if flag.flagType = "bool" then setBoolValue flag value nm
  else if flag.flagType = "duration" then setDurationValue flag value nm
  else if flag.flagType = "float64" then setFloat64Value flag value nm
  else if flag.flagType = "stringSlice" then setStringSliceValue flag value
  else Except.error ("unsupported flag type: " ++ flag.flagType)

/-- Model of FlagSet.validateFlag: run the validator, wrapping its error. -/
def validateFlag (flag : Flag) (nm : String) : Option String :=
  match flag.validator with
  | none => none
  | some v =>
    match v flag.value with
    | none => none
    | some e => some ("validation failed for flag --" ++ nm ++ ": " ++ e)

/-- Model of FlagSet.setFlagValue.  Returns the state after the call and
the error, if any.  Note the order of the source: the conversion writes
the value, `changed` is set, and only then the validator runs — so a
validator failure leaves the new value and `changed = true` in place,
while a conversion failure returns before any mutation. -/
def setFlagValue (fs : FlagSet) (nm value : String) : FlagSet × Option String :=
  match fs.lookupFlag nm with
  | none => (fs, some ("unknown flag: --" ++ nm))
  | some flag =>
    match setFlagValueByType flag value nm with
    | Except.error e => (fs, some e)
    | Except.ok flag1 =>
      let flag2 := { flag1 with changed := true }
      (fs.updateFlag nm flag2, validateFlag flag2 nm)

/-! ### The argument tokenizer -/

/-- Model of FlagSet.isHelpFlag. -/
def isHelpFlag (arg : String) : Bool :=
  arg = "--help" ∨ arg = "-h"

/-- Model of FlagSet.isShortFlag: exactly two characters, a dash then a
non-dash. -/
def isShortFlag (arg : String) : Bool :=
  match arg.data with
  | ['-', c] => c ≠ '-'
  | _ => false

/-- Model of FlagSet.isLongFlag. -/
def isLongFlag (arg : String) : Bool :=
  goHasPfx arg "--"

/-- First-`=` split of strings.IndexByte followed by the two slices. -/
def splitEqL : List Char → Option (List Char × List Char)
  | [] => none
  | c :: rest =>
    if c = '=' then some ([], rest)
    else (splitEqL rest).map (fun p => (c :: p.1, p.2))

def splitEq (s : String) : Option (String × String) :=
  (splitEqL s.data).map (fun p => (String.mk p.1, String.mk p.2))

/-- Model of FlagSet.parseShortFlag: resolve the single character in the
short map; a Bool flag is set true in place, anything else consumes the
next token as its raw value.  The result is the new state and either the
number of extra tokens consumed or the error. -/
def parseShortFlag (fs : FlagSet) (args : List String) (i : Nat) : FlagSet × Except String Nat :=
  let arg := args.getD i ""
  let shortKey := String.mk [arg.data.getD 1 ' ']
  match (lookupA fs.shortMap shortKey).bind fs.lookupFlag with
  | none => (fs, Except.error ("unknown flag: -" ++ shortKey))
  | some flag =>
    if flag.flagType = "bool" then
      (fs.updateFlag flag.name { flag with value := Value.b true, changed := true },
       Except.ok 0)
    else if args.length ≤ i + 1 then
      (fs, Except.error ("flag -" ++ shortKey ++ " requires a value"))
    else
      match setFlagValue fs flag.name (args.getD (i + 1) "") with
      | (fs1, some e) => (fs1, Except.error e)
      | (fs1, none) => (fs1, Except.ok 1)

/-- Model of FlagSet.parseLongFlag. -/
def parseLongFlag (fs : FlagSet) (args : List String) (i : Nat) : FlagSet × Except String Nat :=
  let arg := goDrop (args.getD i "") 2
  match splitEq arg with
  | some (flagName, flagValue) =>
    match setFlagValue fs flagName flagValue with
    | (fs1, some e) => (fs1, Except.error e)
    | (fs1, none) => (fs1, Except.ok 0)
  | none =>
    let flagName := arg
    if i + 1 < args.length ∧ (goHasPfx (args.getD (i + 1) "") "--") = false then
      match setFlagValue fs flagName (args.getD (i + 1) "") with
      | (fs1, some e) => (fs1, Except.error e)
      | (fs1, none) => (fs1, Except.ok 1)
    else
      match fs.lookupFlag flagName with
      | some flag =>
        if flag.flagType = "bool" then
          match setFlagValue fs flagName "true" with
          | (fs1, some e) => (fs1, Except.error e)
          | (fs1, none) => (fs1, Except.ok 0)
        else (fs, Except.error ("flag --" ++ flagName ++ " requires a value"))
      | none => (fs, Except.error ("flag --" ++ flagName ++ " requires a value"))

/-- Model of FlagSet.processArgument: classify one token.  Tokens that
start with a single dash but are neither help, short (length 2) nor
long (double dash) fall through all branches and are ignored. -/
def processArgument (fs : FlagSet) (args : List String) (i : Nat) : FlagSet × Except String Nat :=
  let arg := args.getD i ""
  if (goHasPfx arg "-") = false then (fs, Except.ok 0)
  else if isHelpFlag arg then (fs, Except.error "help requested")
  else if isShortFlag arg then parseShortFlag fs args i
  else if isLongFlag arg then parseLongFlag fs args i
  else (fs, Except.ok 0)

/-- The loop of FlagSet.parseArguments: index advances by one plus the
extra tokens the current argument consumed. -/
def parseArgumentsAux (fs : FlagSet) (args : List String) (i : Nat) : FlagSet × Option String :=
  if _h : i < args.length then
    match processArgument fs args i with
    | (fs1, Except.error e) => (fs1, some e)
    | (fs1, Except.ok consumed) => parseArgumentsAux fs1 args (i + consumed + 1)
  else (fs, none)
termination_by args.length - i
decreasing_by omega

/-- Model of FlagSet.parseArguments. -/
def parseArguments (fs : FlagSet) (args : List String) : FlagSet × Option String :=
  parseArgumentsAux fs args 0

/-- Step-bounded rendering of the same loop, structurally recursive so
that closed instances reduce inside the kernel; `args.length` steps
always suffice (the index strictly increases), see
parseArgumentsAux_eq_bounded below. -/
def parseArgumentsBounded (args : List String) : Nat → FlagSet → Nat → FlagSet × Option String
  | 0, fs, _ => (fs, none)
  | gas + 1, fs, i =>
    if i < args.length then
      match processArgument fs args i with
      | (fs1, Except.error e) => (fs1, some e)
      | (fs1, Except.ok consumed) => parseArgumentsBounded args gas fs1 (i + consumed + 1)
    else (fs, none)

/-! ### Config-file loading -/

/-- A decoded generic JSON value (Go `interface\x7b\x7d` after
json.Unmarshal): JSON numbers arrive as float64, modelled exactly as
rationals. -/
inductive JsonVal where
  | str (s : String)
  | num (q : Rat)
  | boolv (b : Bool)
  | arr (elems : List JsonVal)
  | obj
  | null
deriving Repr

/-- The Go %T type name of a decoded JSON value, as used in the config
error messages. -/
def jsonTypeName : JsonVal → String
  | JsonVal.str _ => "string"
  | JsonVal.num _ => "float64"
  | JsonVal.boolv _ => "bool"
  | JsonVal.arr _ => "array"
  | JsonVal.obj => "map"
  | JsonVal.null => "nil"

def setStringValueFromConfig (flag : Flag) (value : JsonVal) (nm : String) : Except String Flag :=
  match value with
  | JsonVal.str s => Except.ok { flag with value := Value.s s }
  | v => Except.error ("expected string for flag " ++ nm ++ ", got " ++ jsonTypeName v)

def setIntValueFromConfig (flag : Flag) (value : JsonVal) (nm : String) : Except String Flag :=
  match value with
  | JsonVal.num q => Except.ok { flag with value := Value.i (ratTrunc q) }
  | v => Except.error ("expected number for flag " ++ nm ++ ", got " ++ jsonTypeName v)

def setBoolValueFromConfig (flag : Flag) (value : JsonVal) (nm : String) : Except String Flag :=
  match value with
  | JsonVal.boolv b => Except.ok { flag with value := Value.b b }
  | v => Except.error ("expected boolean for flag " ++ nm ++ ", got " ++ jsonTypeName v)

def setFloat64ValueFromConfig (flag : Flag) (value : JsonVal) (nm : String) : Except String Flag :=
  match value with
  | JsonVal.num q => Except.ok { flag with value := Value.f (FloatV.finite q) }
  | v => Except.error ("expected number for flag " ++ nm ++ ", got " ++ jsonTypeName v)

/-- Collect a JSON array of strings, or report the first non-string. -/
def stringsOfJson (nm : String) : List JsonVal → Except String (List String)
  | [] => Except.ok []
  | JsonVal.str s :: rest => (stringsOfJson nm rest).map (fun l => s :: l)
  | v :: _ =>
    Except.error ("expected string array for flag " ++ nm ++ ", got " ++ jsonTypeName v ++ " in array")

def setStringSliceValueFromConfig (flag : Flag) (value : JsonVal) (nm : String) : Except String Flag :=
  match value with
  | JsonVal.arr elems =>
    match stringsOfJson nm elems with
    | Except.error e => Except.error e
    | Except.ok l => Except.ok { flag with value := Value.sl l }
  | v => Except.error ("expected array for flag " ++ nm ++ ", got " ++ jsonTypeName v)

/-- Model of FlagSet.setConfigValueByType; note that "duration" has no
case in the source and falls into the unsupported-type default. -/
def setConfigValueByType (flag : Flag) (value : JsonVal) (nm : String) : Except String Flag :=
  if flag.flagType = "string" then setStringValueFromConfig flag value nm
  else if flag.flagType = "int" then setIntValueFromConfig flag value nm
  else if flag.flagType = "bool" then setBoolValueFromConfig flag value nm
  else if flag.flagType = "float64" then setFloat64ValueFromConfig flag value nm
  else if flag.flagType = "stringSlice" then setStringSliceValueFromConfig flag value nm
  else Except.error ("unsupported flag type: " ++ flag.flagType)

/-- Model of FlagSet.validateFlagValue: the raw validator result. -/
def validateFlagValue (flag : Flag) : Option String :=
  match flag.validator with
  | some v => v flag.value
  | none => none

/-- Model of FlagSet.setFlagValueFromConfig.  Unlike setFlagValue, the
source never sets `changed` on this path. -/
def setFlagValueFromConfig (fs : FlagSet) (nm : String) (value : JsonVal) : FlagSet × Option String :=
  match fs.lookupFlag nm with
  | none => (fs, some ("unknown flag: " ++ nm))
  | some flag =>
    match setConfigValueByType flag value nm with
    | Except.error e => (fs, some e)
    | Except.ok flag1 => (fs.updateFlag nm flag1, validateFlagValue flag1)

/-- Model of the FlagSet.applyConfig loop over the decoded object:
unknown keys are skipped, flags already `changed` are skipped, the
first failing assignment aborts. -/
def applyConfig (fs : FlagSet) : List (String × JsonVal) → FlagSet × Option String
  | [] => (fs, none)
  | (flagName, value) :: rest =>
    match fs.Lookup flagName with
    | none => applyConfig fs rest
    | some flag =>
      if flag.changed then applyConfig fs rest
      else
        match setFlagValueFromConfig fs flagName value with
        | (fs1, some e) =>
          (fs1, some ("failed to set flag " ++ flagName ++ " from config: " ++ e))
        | (fs1, none) => applyConfig fs1 rest

/-- Content of one config file as seen after reading: either invalid
JSON or a decoded top-level object. -/
inductive ConfigData where
  | malformed
  | obj (entries : List (String × JsonVal))

/-- The ambient file system, restricted to what the config loader can
observe: a map from path to readable content.  A path that is absent
models a failing os.Stat / os.ReadFile. -/
structure Fsys where
  files : List (String × ConfigData)

/-- Substring test (strings.Contains) over character lists. -/
def hasSub (pat : List Char) : List Char → Bool
  | [] => pat.isPrefixOf []
  | c :: rest => pat.isPrefixOf (c :: rest) || hasSub pat rest

/-- Model of isSafeAbsolutePath. -/
def isSafeAbsolutePath (path : String) : Bool :=
  goHasPfx path "/tmp/" || goHasPfx path "/opt/" || goHasPfx path "/etc/" ||
  goHasPfx path "/var/folders/" || goHasPfx path "/var/tmp/"

/-- Model of FlagSet.findConfigFile.  filepath.Join is modelled as
concatenation with a slash; os.Getenv("HOME") comes from the explicit
environment. -/
def findConfigFile (fs : FlagSet) (fsys : Fsys) (env : List (String × String)) : String :=
  if fs.configFile ≠ "" then
    if (lookupA fsys.files fs.configFile).isSome then fs.configFile else ""
  else
    let configNames := [fs.name ++ ".json", fs.name ++ ".config.json", "config.json"]
    let searchPaths :=
      if fs.configPaths = [] then [".", "./config", (lookupA env "HOME").getD ""]
      else fs.configPaths
    let found := findSomeA (fun dir =>
      findSomeA (fun nm =>
        let path := dir ++ "/" ++ nm
        if (lookupA fsys.files path).isSome then some path else none) configNames)
      searchPaths
    found.getD ""

/-- Model of FlagSet.loadConfigFromFile: path-safety checks, read,
decode, apply. -/
def loadConfigFromFile (fs : FlagSet) (fsys : Fsys) (path : String) : FlagSet × Option String :=
  if hasSub "..".data path.data then
    (fs, some ("invalid config file path: " ++ path))
  else if goHasPfx path "/" ∧ isSafeAbsolutePath path = false then
    (fs, some ("invalid config file path: " ++ path))
  else
    match lookupA fsys.files path with
    | none => (fs, some ("failed to read config file " ++ path))
    | some ConfigData.malformed => (fs, some ("failed to parse config file " ++ path))
    | some (ConfigData.obj entries) => applyConfig fs entries

/-- Model of FlagSet.LoadConfig: latched by configLoaded, optional by
construction (a missing file is not an error). -/
def LoadConfig (fs : FlagSet) (fsys : Fsys) (env : List (String × String)) :
    FlagSet × Option String :=
  if fs.configLoaded then (fs, none)
  else
    let fs1 := { fs with configLoaded := true }
    if fs1.configFile = "" ∧ fs1.configPaths = [] then (fs1, none)
    else
      let configPath := findConfigFile fs1 fsys env
      if configPath = "" then (fs1, none)
      else loadConfigFromFile fs1 fsys configPath

/-! ### Environment loading -/

/-- Model of FlagSet.getEnvVarName. -/
def getEnvVarName (fs : FlagSet) (flagName : String) (flag : Flag) : String :=
  if flag.envVar ≠ "" then flag.envVar
  else if fs.envPfx ≠ "" then
    fs.envPfx ++ "_" ++ goToUpper (goDashToUnderscore flagName)
  else goToUpper (goDashToUnderscore flagName)

/-- os.Getenv over the explicit environment: unset variables read as "". -/
def getenv (env : List (String × String)) (k : String) : String :=
  (lookupA env k).getD ""

/-- The loop of LoadEnvironmentVariables over the flag entries that
existed when the loop started, reading the current state at each step
(the Go loop iterates the map and follows the stored pointers). -/
def loadEnvAux (fs : FlagSet) (env : List (String × String)) :
    List (String × Flag) → FlagSet × Option String
  | [] => (fs, none)
  | (nm, _) :: rest =>
    match fs.lookupFlag nm with
    | none => loadEnvAux fs env rest
    | some flag =>
      if flag.changed then loadEnvAux fs env rest
      else
        let envVarName := getEnvVarName fs nm flag
        if envVarName = "" then loadEnvAux fs env rest
        else
          let envValue := getenv env envVarName
          if envValue = "" then loadEnvAux fs env rest
          else
            match setFlagValue fs nm envValue with
            | (fs1, some e) =>
              (fs1, some ("invalid environment variable " ++ envVarName ++ "=" ++
                envValue ++ ": " ++ e))
            | (fs1, none) => loadEnvAux fs1 env rest

/-- Model of FlagSet.LoadEnvironmentVariables: opt-in, and only flags
whose `changed` is still false are written. -/
def LoadEnvironmentVariables (fs : FlagSet) (env : List (String × String)) :
    FlagSet × Option String :=
  if fs.enableEnvLookup = false then (fs, none)
  else loadEnvAux fs env fs.flags

/-! ### Constraint validation -/

/-- Model of FlagSet.ValidateRequired. -/
def ValidateRequired (fs : FlagSet) : Option String :=
  findSomeA (fun p =>
    if p.2.required ∧ p.2.changed = false then
      some ("required flag --" ++ p.1 ++ " not provided")
    else none) fs.flags

/-- The inner dependency loop for one changed flag. -/
def checkDeps (fs : FlagSet) (nm : String) : List String → Option String
  | [] => none
  | dep :: rest =>
    match fs.Lookup dep with
    | none => some ("flag --" ++ nm ++ " depends on non-existent flag --" ++ dep)
    | some depFlag =>
      if depFlag.changed = false then
        some ("flag --" ++ nm ++ " requires --" ++ dep ++ " to be set")
      else checkDeps fs nm rest

/-- Model of FlagSet.ValidateDependencies. -/
def ValidateDependencies (fs : FlagSet) : Option String :=
  findSomeA (fun p =>
    if p.2.changed ∧ p.2.dependencies ≠ [] then checkDeps fs p.1 p.2.dependencies
    else none) fs.flags

/-- Model of FlagSet.ValidateAll: re-run every validator against the
final current value. -/
def ValidateAll (fs : FlagSet) : Option String :=
  findSomeA (fun p =>
    match p.2.validator with
    | none => none
    | some _ =>
      match p.2.Validate with
      | none => none
      | some e => some ("validation failed for flag --" ++ p.1 ++ ": " ++ e)) fs.flags

/-- Model of FlagSet.ValidateAllConstraints: required, then
dependencies, then validators; first failure wins. -/
def ValidateAllConstraints (fs : FlagSet) : Option String :=
  match ValidateRequired fs with
  | some e => some e
  | none =>
    match ValidateDependencies fs with
    | some e => some e
    | none => ValidateAll fs

/-! ### The Parse pipeline -/

/-- Model of FlagSet.Parse: config file first, then environment, then
the CLI tokenizer, then constraint validation.  The file system and
process environment are explicit parameters; the returned state is the
flag set after all mutations that happened before a possible error. -/
def parse (fs : FlagSet) (fsys : Fsys) (env : List (String × String))
    (args : List String) : FlagSet × Option String :=
  match LoadConfig fs fsys env with
  | (fs1, some e) => (fs1, some ("config file error: " ++ e))
  | (fs1, none) =>
    match LoadEnvironmentVariables fs1 env with
    | (fs2, some e) => (fs2, some ("environment variable error: " ++ e))
    | (fs2, none) =>
      match parseArguments fs2 args with
      | (fs3, some e) => (fs3, some e)
      | (fs3, none) => (fs3, ValidateAllConstraints fs3)

/-! ### Registration API (used to build concrete flag sets) -/

/-- Model of flashflags.New. -/
def New (nm : String) : FlagSet :=
  { flags := [], shortMap := [], name := nm, description := "", version := "",
    configFile := "", configPaths := [], configLoaded := false, envPfx := "",
    enableEnvLookup := false }

def mkFlag (nm : String) (v : Value) (ft shortKey usage : String) : Flag :=
  { name := nm, value := v, defaultValue := v, flagType := ft, changed := false,
    usage := usage, shortKey := shortKey, validator := none, required := false,
    dependencies := [], group := "", envVar := "" }

/-- Model of FlagSet.StringVar (String is the shortKey-free special case). -/
def FlagSet.StringVar (fs : FlagSet) (nm shortKey defaultValue usage : String) : FlagSet :=
  let fs1 := { fs with flags := insertA fs.flags nm (mkFlag nm (Value.s defaultValue) "string" shortKey usage) }
  if shortKey ≠ "" then { fs1 with shortMap := insertA fs1.shortMap shortKey nm } else fs1

/-- Model of FlagSet.IntVar. -/
def FlagSet.IntVar (fs : FlagSet) (nm shortKey : String) (defaultValue : Int) (usage : String) : FlagSet :=
  let fs1 := { fs with flags := insertA fs.flags nm (mkFlag nm (Value.i defaultValue) "int" shortKey usage) }
  if shortKey ≠ "" then { fs1 with shortMap := insertA fs1.shortMap shortKey nm } else fs1

/-- Model of FlagSet.BoolVar. -/
def FlagSet.BoolVar (fs : FlagSet) (nm shortKey : String) (defaultValue : Bool) (usage : String) : FlagSet :=
  let fs1 := { fs with flags := insertA fs.flags nm (mkFlag nm (Value.b defaultValue) "bool" shortKey usage) }
  if shortKey ≠ "" then { fs1 with shortMap := insertA fs1.shortMap shortKey nm } else fs1

/-- Model of FlagSet.Float64 (no short key in the source). -/
def FlagSet.Float64 (fs : FlagSet) (nm : String) (defaultValue : Rat) (usage : String) : FlagSet :=
  { fs with flags := insertA fs.flags nm (mkFlag nm (Value.f (FloatV.finite defaultValue)) "float64" "" usage) }

/-- Model of FlagSet.Duration (default in nanoseconds). -/
def FlagSet.Duration (fs : FlagSet) (nm : String) (defaultValue : Int) (usage : String) : FlagSet :=
  { fs with flags := insertA fs.flags nm (mkFlag nm (Value.d defaultValue) "duration" "" usage) }

/-- Model of FlagSet.StringSlice. -/
def FlagSet.StringSlice (fs : FlagSet) (nm : String) (defaultValue : List String) (usage : String) : FlagSet :=
  { fs with flags := insertA fs.flags nm (mkFlag nm (Value.sl defaultValue) "stringSlice" "" usage) }

/-- Model of FlagSet.SetValidator (the not-found error of the source is
dropped; the witnesses below only use it on existing flags). -/
def FlagSet.SetValidator (fs : FlagSet) (nm : String) (v : Value → Option String) : FlagSet :=
  match fs.Lookup nm with
  | none => fs
  | some flag => fs.updateFlag nm { flag with validator := some v }

/-- Model of FlagSet.SetRequired. -/
def FlagSet.SetRequired (fs : FlagSet) (nm : String) : FlagSet :=
  match fs.Lookup nm with
  | none => fs
  | some flag => fs.updateFlag nm { flag with required := true }

/-- Model of FlagSet.SetDependencies. -/
def FlagSet.SetDependencies (fs : FlagSet) (nm : String) (deps : List String) : FlagSet :=
  match fs.Lookup nm with
  | none => fs
  | some flag => fs.updateFlag nm { flag with dependencies := deps }

/-- Model of FlagSet.SetEnvVar. -/
def FlagSet.SetEnvVar (fs : FlagSet) (nm envVarName : String) : FlagSet :=
  match fs.lookupFlag nm with
  | none => fs
  | some flag => fs.updateFlag nm { flag with envVar := envVarName }

/-- Model of FlagSet.SetConfigFile. -/
def FlagSet.SetConfigFile (fs : FlagSet) (path : String) : FlagSet :=
  { fs with configFile := path }

/-- Model of FlagSet.EnableEnvLookup. -/
def FlagSet.EnableEnvLookup (fs : FlagSet) : FlagSet :=
  { fs with enableEnvLookup := true }

/-! ### The CLI assignment trace

To state the priority property (CLI always wins) for arbitrary argument
lists, the assignment behaviour of the tokenizer is replayed as a pure
function of the argument list and of the parse-invariant part of the
flag set (the flag names and kinds and the short-key index, none of
which any assignment changes).  `lastCliVal` computes, for a flag name,
the last value the token walk assigns to it — the "(last) CLI-supplied
value" of the specification. -/

/-- What a single CLI assignment supplies: a raw string to be converted
(long flags and short value flags) or the direct `true` of a short
boolean flag. -/
inductive CliVal where
  | raw (v : String)
  | boolTrue
deriving DecidableEq, Repr

/-- The value computed by setFlagValueByType for a given flag kind and
raw string (projection of the setters on the value component). -/
def convValue (ft raw : String) : Option Value :=
  if ft = "string" then some (Value.s raw)
  else if ft = "int" then (goAtoi raw).map Value.i
  else if ft = "bool" then (goParseBool raw).map Value.b
  else if ft = "duration" then (goParseDuration raw).map Value.d
  else if ft = "float64" then (goParseFloat raw).map Value.f
  else if ft = "stringSlice" then some (Value.sl (parseStringSlice raw))
  else none

/-- The value a CLI assignment stores, given the flag kind. -/
def cliAssignedValue (ft : String) : CliVal → Option Value
  | CliVal.raw r => convValue ft r
  | CliVal.boolTrue => some (Value.b true)

/-- One step of the token walk, on the parse-invariant data only:
which (key, supplied value) assignment the token at index `i` performs
and how many extra tokens it consumes.  Branches on which the real
parser stops with an error (or help) report no assignment; they are
irrelevant under the success hypothesis of the theorems below. -/
def cliStep (fs : FlagSet) (args : List String) (i : Nat) :
    Option (String × CliVal) × Nat :=
  let arg := args.getD i ""
  if (goHasPfx arg "-") = false then (none, 0)
  else if isHelpFlag arg then (none, 0)
  else if isShortFlag arg then
    let shortKey := String.mk [arg.data.getD 1 ' ']
    match (lookupA fs.shortMap shortKey).bind fs.lookupFlag with
    | none => (none, 0)
    | some flag =>
      if flag.flagType = "bool" then (some (flag.name, CliVal.boolTrue), 0)
      else if args.length ≤ i + 1 then (none, 0)
      else (some (flag.name, CliVal.raw (args.getD (i + 1) "")), 1)
  else if isLongFlag arg then
    let a := goDrop (args.getD i "") 2
    match splitEq a with
    | some (fn, fv) => (some (fn, CliVal.raw fv), 0)
    | none =>
      if i + 1 < args.length ∧ (goHasPfx (args.getD (i + 1) "") "--") = false then
        (some (a, CliVal.raw (args.getD (i + 1) "")), 1)
      else
        match fs.lookupFlag a with
        | some flag =>
          if flag.flagType = "bool" then (some (a, CliVal.raw "true"), 0) else (none, 0)
        | none => (none, 0)
  else (none, 0)

/-- Last value the token walk starting at index `i` assigns to flag
name `n` (later assignments shadow earlier ones).  `gas` bounds the
number of steps; since every step advances the index, `args.length`
steps always suffice. -/
def lastCliAux (fs : FlagSet) (args : List String) : Nat → Nat → String → Option CliVal
  | 0, _, _ => none
  | gas + 1, i, n =>
    if i < args.length then
      match cliStep fs args i with
      | (ev, consumed) =>
        match lastCliAux fs args gas (i + consumed + 1) n with
        | some v => some v
        | none =>
          match ev with
          | some (m, v) => if m = n then some v else none
          | none => none
    else none

/-- The last CLI-supplied value for flag `n` over a whole argument
list. -/
def lastCliVal (fs : FlagSet) (args : List String) (n : String) : Option CliVal :=
  lastCliAux fs args args.length 0 n

/-- The parse-invariant shape two flag sets can share: same short-key
index and, per long name, same flag name field and kind. -/
def shapeEq (fs fs2 : FlagSet) : Prop :=
  fs2.shortMap = fs.shortMap ∧
  ∀ k, (fs2.lookupFlag k).map (fun f => (f.name, f.flagType)) =
    (fs.lookupFlag k).map (fun f => (f.name, f.flagType))

/-- Every flag sits in the table under its own name — true of every
flag set built through the registration API (each registration function
stores the new Flag under the name it carries), and preserved by all
mutation, which goes through updateFlag at that same name. -/
def wfNames (fs : FlagSet) : Prop :=
  ∀ p ∈ fs.flags, (p.2 : Flag).name = p.1

/-- Reference split for the StringList contract: split on every comma,
keeping empty segments (the drop-empties behaviour of the code is then
exactly a filter of this). -/
def splitOnCommas : List Char → List (List Char)
  | [] => [[]]
  | c :: rest =>
    if c = ',' then [] :: splitOnCommas rest
    else
      match splitOnCommas rest with
      | s :: ss => (c :: s) :: ss
      | [] => [[c]]

/-! ### Concrete fixtures used by witnesses and counterexamples -/

/-- Three flags with short keys as in the combined-flag tests of the
repository (verbose/v and debug/d boolean, name/n string). -/
def fsT : FlagSet :=
  (((New "test").BoolVar "verbose" "v" false "Verbose output").BoolVar
    "debug" "d" false "Debug mode").StringVar "name" "n" "" "Name"

/-- A string flag fed from an explicit config file. -/
def fsCfg : FlagSet :=
  ((New "test").StringVar "host" "" "default" "Host flag").SetConfigFile "c.json"

/-- The file system containing that config file. -/
def fsysCfg : Fsys :=
  ⟨[("c.json", ConfigData.obj [("host", JsonVal.str "config-host")])]⟩

/-- A flag set with one required, never set flag. -/
def fsReq : FlagSet :=
  ((New "app").StringVar "key" "" "" "API key").SetRequired "key"

/-- The flag stored in fsReq. -/
def flReq : Flag :=
  { mkFlag "key" (Value.s "") "string" "" "API key" with required := true }

/-- An int flag for the conversion-failure witness. -/
def fsPort : FlagSet := (New "app").IntVar "port" "" 8080 "Port"

/-- The flag stored in fsPort. -/
def flPort : Flag := mkFlag "port" (Value.i 8080) "int" "" "Port"

/-- A validator rejecting privileged ports. -/
def vfPort : Value → Option String := fun val =>
  match val with
  | Value.i p => if p < 1024 then some "port too low" else none
  | _ => none

/-- An int flag with that validator, in a state whose config latch is
already set (as after an earlier Parse). -/
def fsPortV : FlagSet :=
  { ((New "app").IntVar "port" "" 8080 "Port").SetValidator "port" vfPort with
    configLoaded := true }

/-- The flag stored in fsPortV. -/
def flPortV : Flag := { mkFlag "port" (Value.i 8080) "int" "" "Port" with validator := some vfPort }

/-- flPortV after the (rejected but kept) assignment of 80. -/
def flPortV80 : Flag := { flPortV with value := Value.i 80, changed := true }

/-- Fixture for the constraint-order claim: a required unset flag and a
changed flag with a broken dependency. -/
def fsC6 : FlagSet :=
  ((((New "app").StringVar "alpha" "" "" "").StringVar "beta" "" "" "").SetRequired
    "alpha").SetDependencies "beta" ["gamma"]

/-- fsC6 with beta marked changed (so that, were required checked after
dependencies, the dependency error would fire first). -/
def fsC6c : FlagSet :=
  match fsC6.lookupFlag "beta" with
  | some fl => fsC6.updateFlag "beta" { fl with changed := true }
  | none => fsC6

/-- Priority fixture: an int flag supplied by config file, environment
and CLI at once. -/
def fsPrio : FlagSet :=
  ({ (New "app").IntVar "port" "" 8080 "Port" with configFile := "app.json" }).EnableEnvLookup

/-- Config file supplying port 9000. -/
def fsysPrio : Fsys := ⟨[("app.json", ConfigData.obj [("port", JsonVal.num 9000)])]⟩

/-- Environment supplying PORT=7000. -/
def envPrio : List (String × String) := [("PORT", "7000")]

/-! ### Association-list lemmas -/

theorem lookupA_updateA {α : Type} (l : List (String × α)) (n : String) (v : α) (x : String) :
    lookupA (updateA l n v) x =
      if x = n ∧ (lookupA l n).isSome then some v else lookupA l x := by
  induction l with
  | nil => simp [lookupA, updateA]
  | cons p rest ih =>
    obtain ⟨k, w⟩ := p
    simp only [updateA, List.map_cons] at ih ⊢
    by_cases hkn : k = n
    · rw [if_pos hkn]
      subst hkn
      simp only [lookupA]
      by_cases hxk : k = x
      · subst hxk; simp
      · have hxk2 : ¬ x = k := fun h => hxk h.symm
        rw [if_neg hxk, ih]
        simp [lookupA, hxk, hxk2]
    · rw [if_neg hkn]
      simp only [lookupA]
      by_cases hxk : k = x
      · subst hxk
        simp [lookupA, hkn]
      · have hxk2 : ¬ x = k := fun h => hxk h.symm
        rw [if_neg hxk, ih]
        simp [lookupA, hkn, hxk, hxk2]

/-- Specialisation: reading back after an update of an existing key. -/
theorem lookupA_updateA_self {α : Type} (l : List (String × α)) (n : String) (v : α)
    (x : String) (h : (lookupA l n).isSome) :
    lookupA (updateA l n v) x = if x = n then some v else lookupA l x := by
  rw [lookupA_updateA]
  by_cases hx : x = n <;> simp [hx, h]

theorem lookupA_mem {α : Type} (l : List (String × α)) (nm : String) (v : α)
    (h : lookupA l nm = some v) : (nm, v) ∈ l := by
  induction l with
  | nil => cases h
  | cons q rest ih =>
    rw [lookupA] at h
    by_cases hq : q.1 = nm
    · rw [if_pos hq] at h
      have hqv : q = (nm, v) := by
        obtain ⟨a, b⟩ := q
        cases h
        simp only at hq
        rw [hq]
      rw [hqv]
      exact List.mem_cons_self _ _
    · rw [if_neg hq] at h
      exact List.mem_cons_of_mem _ (ih h)

/-! ### The bounded loop agrees with the source loop -/

theorem parseArgumentsAux_eq_bounded (args : List String) :
    ∀ (gas : Nat) (fs : FlagSet) (i : Nat), args.length - i ≤ gas →
    parseArgumentsBounded args gas fs i = parseArgumentsAux fs args i := by
  intro gas
  induction gas with
  | zero =>
    intro fs i h
    rw [parseArgumentsAux.eq_def]
    have : ¬ i < args.length := by omega
    simp [parseArgumentsBounded, this]
  | succ g ih =>
    intro fs i h
    rw [parseArgumentsAux.eq_def]
    by_cases hi : i < args.length
    · simp only [parseArgumentsBounded, if_pos hi, dif_pos hi]
      cases hpa : processArgument fs args i with
      | mk fs1 r =>
        cases r with
        | error e => rfl
        | ok consumed => exact ih fs1 (i + consumed + 1) (by omega)
    · simp [parseArgumentsBounded, hi]

theorem parseArguments_eq_bounded (fs : FlagSet) (args : List String) :
    parseArguments fs args = parseArgumentsBounded args args.length fs 0 :=
  (parseArgumentsAux_eq_bounded args args.length fs 0 (by omega)).symm

/-! ### Claim C5: StringList comma splitting -/

theorem splitOnCommas_ne_nil (l : List Char) : splitOnCommas l ≠ [] := by
  cases l with
  | nil => simp [splitOnCommas]
  | cons c rest =>
    simp only [splitOnCommas]
    split
    · simp
    · cases h : splitOnCommas rest <;> simp

theorem splitByCommaAux_eq (l : List Char) : ∀ (acc : List Char) (s : List Char)
    (ss : List (List Char)), splitOnCommas l = s :: ss →
    splitByCommaAux acc l = ((acc.reverse ++ s) :: ss).filter (fun seg => seg ≠ []) := by
  induction l with
  | nil =>
    intro acc s ss h
    simp only [splitOnCommas] at h
    cases h
    by_cases hacc : acc = []
    · subst hacc; simp [splitByCommaAux]
    · have : acc.reverse ≠ [] := by simpa using hacc
      simp [splitByCommaAux, hacc, this]
  | cons c rest ih =>
    intro acc s ss h
    by_cases hc : c = ','
    · subst hc
      simp only [splitOnCommas, if_pos rfl] at h
      obtain ⟨rfl, hss⟩ : s = [] ∧ splitOnCommas rest = ss := by
        cases h; exact ⟨rfl, rfl⟩
      obtain ⟨s2, ss2, h2⟩ : ∃ s2 ss2, splitOnCommas rest = s2 :: ss2 := by
        cases h3 : splitOnCommas rest with
        | nil => exact absurd h3 (splitOnCommas_ne_nil rest)
        | cons a b => exact ⟨a, b, rfl⟩
      by_cases hacc : acc = []
      · subst hacc
        simp only [splitByCommaAux, if_pos rfl]
        rw [ih [] s2 ss2 h2]
        rw [← hss, h2]
        simp
      · have hrev : acc.reverse ≠ [] := by simpa using hacc
        simp only [splitByCommaAux, if_pos rfl, if_neg hacc]
        rw [ih [] s2 ss2 h2]
        rw [← hss, h2]
        simp [hrev]
    · simp only [splitOnCommas, if_neg hc] at h
      obtain ⟨s2, ss2, h2⟩ : ∃ s2 ss2, splitOnCommas rest = s2 :: ss2 := by
        cases h3 : splitOnCommas rest with
        | nil => exact absurd h3 (splitOnCommas_ne_nil rest)
        | cons a b => exact ⟨a, b, rfl⟩
      rw [h2] at h
      obtain ⟨hs, hss⟩ : s = c :: s2 ∧ ss2 = ss := by cases h; exact ⟨rfl, rfl⟩
      subst hs; subst hss
      simp only [splitByCommaAux, if_neg hc]
      rw [ih (c :: acc) s2 ss2 h2]
      simp

/-- C5: for every raw input, the StringList conversion is the comma
split with empty segments dropped; in particular the four boundary
examples of the spec. -/
theorem c5_stringlist_split :
    (∀ s : String, parseStringSlice s =
      (((splitOnCommas s.data).filter (fun seg => seg ≠ [])).map String.mk)) ∧
    parseStringSlice "a,b,c" = ["a", "b", "c"] ∧
    parseStringSlice "" = [] ∧
    parseStringSlice "," = [] ∧
    parseStringSlice "a,,b" = ["a", "b"] := by
  refine ⟨?_, by decide, by decide, by decide, by decide⟩
  intro s
  by_cases hs : s = ""
  · subst hs
    decide
  · obtain ⟨seg, ss, h2⟩ : ∃ seg ss, splitOnCommas s.data = seg :: ss := by
      cases h3 : splitOnCommas s.data with
      | nil => exact absurd h3 (splitOnCommas_ne_nil s.data)
      | cons a b => exact ⟨a, b, rfl⟩
    simp only [parseStringSlice, if_neg hs, splitByComma]
    rw [splitByCommaAux_eq s.data [] seg ss h2, h2]
    simp

/-! ### Claim C3: combined short clusters (code/spec divergence) -/

/-- C3: with verbose/v and debug/d boolean and name/n string, the
token "-vdn" is not decomposed: Parse(["-vdn", "John"]) succeeds while
leaving verbose and debug unset and name at its default — the
combined-cluster decomposition the spec (and the repository's own doc
and tests) describe does not exist in the parser: isShortFlag requires
length 2, isLongFlag requires a double dash, and every other token
starting with a single dash falls through processArgument unhandled. -/
theorem c3_combined_cluster_ignored :
    (parse fsT ⟨[]⟩ [] ["-vdn", "John"]).2 = none ∧
    (parse fsT ⟨[]⟩ [] ["-vdn", "John"]).1.Changed "verbose" = false ∧
    (parse fsT ⟨[]⟩ [] ["-vdn", "John"]).1.Changed "debug" = false ∧
    ((parse fsT ⟨[]⟩ [] ["-vdn", "John"]).1.Lookup "name").map Flag.value =
      some (Value.s "") ∧
    (parse fsT ⟨[]⟩ [] ["-vnd", "value"]).2 = none := by
  simp only [parse, parseArguments_eq_bounded]
  decide

/-! ### Claim C4: lone "-" and "--" tokens (code/spec divergence) -/

/-- C4: a lone "-" is indeed ignored, but a lone "--" is parsed as a
long flag with empty name and fails ("flag -- requires a value", or
"unknown flag: --" when a further token follows and is swallowed as its
value); there is no positional-separator handling in the parser. -/
theorem c4_double_dash_is_error :
    (parse fsT ⟨[]⟩ [] ["-"]).2 = none ∧
    (parse fsT ⟨[]⟩ [] ["--"]).2 = some "flag -- requires a value" ∧
    (parse fsT ⟨[]⟩ [] ["--", "file.txt"]).2 = some "unknown flag: --" := by
  simp only [parse, parseArguments_eq_bounded]
  decide

/-! ### Claim C2: config assignments and the changed field -/

/-- C2: a flag that received its value from the config file alone has
`changed = false` after a successful Parse — setFlagValueFromConfig
never sets `changed`, so Changed(name) returns false, contrary to the
claim (and to the doc comments of Changed and ValidateRequired in the
source). -/
theorem c2_config_does_not_set_changed :
    (parse fsCfg fsysCfg [] []).2 = none ∧
    ((parse fsCfg fsysCfg [] []).1.Lookup "host").map Flag.value =
      some (Value.s "config-host") ∧
    (parse fsCfg fsysCfg [] []).1.Changed "host" = false := by
  simp only [parse, parseArguments_eq_bounded]
  decide

/-! ### Claim C8: help short-circuits before validation -/

/-- C8: if the argument list is exactly ["--help"] or ["-h"], Parse
returns the distinguished "help requested" error even when a required
flag was never set, because processArgument aborts the token walk
before ValidateAllConstraints can run (the config and environment
stages run first; they are assumed error-free here). -/
theorem c8_help_short_circuit (fs : FlagSet) (fsys : Fsys) (env : List (String × String))
    (n : String) (fl : Flag)
    (_hreq : fs.Lookup n = some fl) (_hflreq : fl.required = true)
    (_hflch : fl.changed = false)
    (hcfg : (LoadConfig fs fsys env).2 = none)
    (henv : (LoadEnvironmentVariables (LoadConfig fs fsys env).1 env).2 = none) :
    (parse fs fsys env ["--help"]).2 = some "help requested" ∧
    (parse fs fsys env ["-h"]).2 = some "help requested" := by
  have hargs : ∀ a : String, isHelpFlag a = true → goHasPfx a "-" = true →
      ∀ fs2 : FlagSet, parseArguments fs2 [a] = (fs2, some "help requested") := by
    intro a ha hpre fs2
    rw [parseArguments, parseArgumentsAux.eq_def]
    simp only [List.length_cons, List.length_nil, Nat.zero_lt_one, dif_pos]
    simp [processArgument, ha, hpre]
  constructor <;>
  · unfold parse
    rcases h1 : LoadConfig fs fsys env with ⟨fs1, e1⟩
    rw [h1] at hcfg henv
    simp only at hcfg henv
    subst hcfg
    rcases h2 : LoadEnvironmentVariables fs1 env with ⟨fs2, e2⟩
    rw [h2] at henv
    simp only at henv
    subst henv
    dsimp only
    rw [h2]
    dsimp only
    rw [hargs _ (by decide) (by decide) fs2]

/-! ### Claim C7: conversion failure is atomic -/

/-- C7: for a flag of kind int, bool, float64 or duration, a raw string
that fails the kind's conversion makes setFlagValue return an error
with the flag set completely untouched (the setters return before any
mutation, and `changed` is only set after a successful conversion). -/
theorem c7_conversion_failure_atomic (fs : FlagSet) (nm v : String) (fl : Flag)
    (hlk : fs.lookupFlag nm = some fl)
    (hfail : (fl.flagType = "int" ∧ goAtoi v = none) ∨
      (fl.flagType = "bool" ∧ goParseBool v = none) ∨
      (fl.flagType = "float64" ∧ goParseFloat v = none) ∨
      (fl.flagType = "duration" ∧ goParseDuration v = none)) :
    ∃ e, setFlagValue fs nm v = (fs, some e) := by
  have hbt : ∃ e, setFlagValueByType fl v nm = Except.error e := by
    rcases hfail with ⟨ht, hc⟩ | ⟨ht, hc⟩ | ⟨ht, hc⟩ | ⟨ht, hc⟩ <;>
      · rw [setFlagValueByType, ht]
        simp [setIntValue, setBoolValue, setFloat64Value, setDurationValue, hc]
  obtain ⟨e, he⟩ := hbt
  refine ⟨e, ?_⟩
  rw [setFlagValue, hlk]
  simp only [he]

/-! ### Claim C10: validator rejection is not atomic -/

/-- C10: when the conversion succeeds but the flag's validator rejects
the converted value, setFlagValue returns the validation error while
the flag keeps the rejected assignment (new value, changed = true); a
Parse whose CLI stage performs that assignment returns the same error
with the same retained state. -/
theorem c10_validator_rejection_kept (fs : FlagSet) (fsys : Fsys)
    (env : List (String × String)) (nm v : String) (fl fl1 : Flag)
    (vf : Value → Option String) (msg : String) (arg : String)
    (hlk : fs.lookupFlag nm = some fl)
    (hconv : setFlagValueByType fl v nm = Except.ok fl1)
    (hvf : fl1.validator = some vf)
    (hrej : vf fl1.value = some msg)
    (ha1 : goHasPfx arg "-" = true) (ha2 : isHelpFlag arg = false)
    (ha3 : isShortFlag arg = false) (ha4 : isLongFlag arg = true)
    (ha5 : splitEq (goDrop arg 2) = some (nm, v))
    (hld : LoadConfig fs fsys env = (fs, none))
    (hle : LoadEnvironmentVariables fs env = (fs, none)) :
    setFlagValue fs nm v =
      (fs.updateFlag nm { fl1 with changed := true },
       some ("validation failed for flag --" ++ nm ++ ": " ++ msg)) ∧
    (fs.updateFlag nm { fl1 with changed := true }).lookupFlag nm =
      some { fl1 with changed := true } ∧
    parse fs fsys env [arg] =
      (fs.updateFlag nm { fl1 with changed := true },
       some ("validation failed for flag --" ++ nm ++ ": " ++ msg)) := by
  have hset : setFlagValue fs nm v =
      (fs.updateFlag nm { fl1 with changed := true },
       some ("validation failed for flag --" ++ nm ++ ": " ++ msg)) := by
    rw [setFlagValue, hlk]
    simp only [hconv]
    rw [validateFlag]
    simp [hvf, hrej]
  refine ⟨hset, ?_, ?_⟩
  · show lookupA (updateA fs.flags nm _) nm = _
    rw [lookupA_updateA_self fs.flags nm _ nm (by simp [FlagSet.lookupFlag] at hlk; simp [hlk])]
    simp
  · unfold parse
    rw [hld]
    dsimp only
    rw [hle]
    dsimp only
    have hargs : parseArguments fs [arg] =
        (fs.updateFlag nm { fl1 with changed := true },
         some ("validation failed for flag --" ++ nm ++ ": " ++ msg)) := by
      rw [parseArguments, parseArgumentsAux.eq_def]
      simp only [List.length_cons, List.length_nil, Nat.zero_lt_one, dif_pos]
      have hpa : processArgument fs [arg] 0 =
          (fs.updateFlag nm { fl1 with changed := true },
           Except.error ("validation failed for flag --" ++ nm ++ ": " ++ msg)) := by
        rw [processArgument]
        simp only [List.getD_cons_zero, ha1, ha2, ha3, ha4, if_false, if_true,
          Bool.true_eq_false, Bool.false_eq_true, if_pos, if_neg]
        rw [parseLongFlag]
        simp only [List.getD_cons_zero, ha5, hset]
      rw [hpa]
      simp
    rw [hargs]

/-- Witness for C8 at a concrete flag set with a required, unset flag. -/
theorem c8_help_short_circuit_witness :
    (parse fsReq ⟨[]⟩ [] ["--help"]).2 = some "help requested" ∧
    (parse fsReq ⟨[]⟩ [] ["-h"]).2 = some "help requested" :=
  c8_help_short_circuit fsReq ⟨[]⟩ [] "key" flReq rfl rfl rfl (by decide) (by decide)

/-- Witness for C7: an int flag refuses "abc" and is left untouched. -/
theorem c7_conversion_failure_atomic_witness :
    ∃ e, setFlagValue fsPort "port" "abc" = (fsPort, some e) :=
  c7_conversion_failure_atomic fsPort "port" "abc" flPort rfl (Or.inl ⟨rfl, rfl⟩)

/-- Witness for C10: port=80 converts fine, the validator rejects it,
and the rejected assignment is kept while Parse reports the error. -/
theorem c10_validator_rejection_kept_witness :
    setFlagValue fsPortV "port" "80" =
      (fsPortV.updateFlag "port" flPortV80,
       some "validation failed for flag --port: port too low") ∧
    (fsPortV.updateFlag "port" flPortV80).lookupFlag "port" = some flPortV80 ∧
    parse fsPortV ⟨[]⟩ [] ["--port=80"] =
      (fsPortV.updateFlag "port" flPortV80,
       some "validation failed for flag --port: port too low") :=
  c10_validator_rejection_kept fsPortV ⟨[]⟩ [] "port" "80" flPortV
    { flPortV with value := Value.i 80 } vfPort "port too low" "--port=80"
    rfl rfl rfl (by decide) (by decide) (by decide) (by decide) (by decide)
    (by decide) rfl rfl

/-! ### Claim C9: the configLoaded latch -/

theorem configLoaded_setFlagValue (fs : FlagSet) (nm v : String) :
    ((setFlagValue fs nm v).1).configLoaded = fs.configLoaded := by
  rw [setFlagValue]
  split
  · rfl
  · split
    · rfl
    · rfl

theorem configLoaded_parseShortFlag (fs : FlagSet) (args : List String) (i : Nat) :
    ((parseShortFlag fs args i).1).configLoaded = fs.configLoaded := by
  rw [parseShortFlag]
  split
  all_goals try rfl
  all_goals split
  all_goals try rfl
  all_goals split
  all_goals try rfl
  all_goals split
  all_goals
    rename_i heq
    exact (congrArg (fun p => FlagSet.configLoaded p.1) heq).symm.trans
      (configLoaded_setFlagValue _ _ _)

theorem configLoaded_parseLongFlag (fs : FlagSet) (args : List String) (i : Nat) :
    ((parseLongFlag fs args i).1).configLoaded = fs.configLoaded := by
  rw [parseLongFlag]
  dsimp only
  split
  · split
    all_goals
      rename_i heq
      exact (congrArg (fun q => FlagSet.configLoaded q.1) heq).symm.trans
        (configLoaded_setFlagValue _ _ _)
  · split
    · split
      all_goals
        rename_i heq
        exact (congrArg (fun q => FlagSet.configLoaded q.1) heq).symm.trans
          (configLoaded_setFlagValue _ _ _)
    · split
      · split
        · split
          all_goals
            rename_i heq
            exact (congrArg (fun q => FlagSet.configLoaded q.1) heq).symm.trans
              (configLoaded_setFlagValue _ _ _)
        · rfl
      · rfl

theorem configLoaded_processArgument (fs : FlagSet) (args : List String) (i : Nat) :
    ((processArgument fs args i).1).configLoaded = fs.configLoaded := by
  rw [processArgument]
  split
  · rfl
  · split
    · rfl
    · split
      · exact configLoaded_parseShortFlag fs args i
      · split
        · exact configLoaded_parseLongFlag fs args i
        · rfl

theorem configLoaded_parseArgumentsBounded (args : List String) :
    ∀ (gas : Nat) (fs : FlagSet) (i : Nat),
    ((parseArgumentsBounded args gas fs i).1).configLoaded = fs.configLoaded := by
  intro gas
  induction gas with
  | zero => intro fs i; rfl
  | succ g ih =>
    intro fs i
    rw [parseArgumentsBounded]
    split
    · split
      · rename_i heq
        exact (congrArg (fun p => FlagSet.configLoaded p.1) heq).symm.trans
          (configLoaded_processArgument fs args i)
      · rename_i fs1 consumed heq
        rw [ih fs1 (i + consumed + 1)]
        exact (congrArg (fun p => FlagSet.configLoaded p.1) heq).symm.trans
          (configLoaded_processArgument fs args i)
    · rfl

theorem configLoaded_parseArguments (fs : FlagSet) (args : List String) :
    ((parseArguments fs args).1).configLoaded = fs.configLoaded := by
  rw [parseArguments_eq_bounded]
  exact configLoaded_parseArgumentsBounded args args.length fs 0

theorem configLoaded_setFlagValueFromConfig (fs : FlagSet) (nm : String) (v : JsonVal) :
    ((setFlagValueFromConfig fs nm v).1).configLoaded = fs.configLoaded := by
  rw [setFlagValueFromConfig]
  split
  · rfl
  · split
    · rfl
    · rfl

theorem configLoaded_applyConfig (entries : List (String × JsonVal)) :
    ∀ fs : FlagSet, ((applyConfig fs entries).1).configLoaded = fs.configLoaded := by
  induction entries with
  | nil => intro fs; rfl
  | cons p rest ih =>
    intro fs
    rw [applyConfig]
    split
    · exact ih fs
    · split
      · exact ih fs
      · split
        · rename_i heq
          exact (congrArg (fun q => FlagSet.configLoaded q.1) heq).symm.trans
            (configLoaded_setFlagValueFromConfig fs p.1 p.2)
        · rename_i fs1 heq
          rw [ih fs1]
          exact (congrArg (fun q => FlagSet.configLoaded q.1) heq).symm.trans
            (configLoaded_setFlagValueFromConfig fs p.1 p.2)

theorem configLoaded_loadConfigFromFile (fs : FlagSet) (fsys : Fsys) (path : String) :
    ((loadConfigFromFile fs fsys path).1).configLoaded = fs.configLoaded := by
  rw [loadConfigFromFile]
  split
  · rfl
  · split
    · rfl
    · split
      · rfl
      · rfl
      · exact configLoaded_applyConfig _ fs

theorem configLoaded_LoadConfig (fs : FlagSet) (fsys : Fsys) (env : List (String × String)) :
    ((LoadConfig fs fsys env).1).configLoaded = true := by
  rw [LoadConfig]
  split
  · assumption
  · dsimp only
    split
    · rfl
    · split
      · rfl
      · exact configLoaded_loadConfigFromFile _ fsys _

theorem configLoaded_loadEnvAux (env : List (String × String)) :
    ∀ (entries : List (String × Flag)) (fs : FlagSet),
    ((loadEnvAux fs env entries).1).configLoaded = fs.configLoaded := by
  intro entries
  induction entries with
  | nil => intro fs; rfl
  | cons p rest ih =>
    intro fs
    rw [loadEnvAux]
    dsimp only
    split
    · exact ih fs
    · split
      · exact ih fs
      · split
        · exact ih fs
        · split
          · exact ih fs
          · split
            · rename_i heq
              exact (congrArg (fun q => FlagSet.configLoaded q.1) heq).symm.trans
                (configLoaded_setFlagValue _ _ _)
            · rename_i fs1 heq
              rw [ih fs1]
              exact (congrArg (fun q => FlagSet.configLoaded q.1) heq).symm.trans
                (configLoaded_setFlagValue _ _ _)

theorem configLoaded_LoadEnvironmentVariables (fs : FlagSet) (env : List (String × String)) :
    ((LoadEnvironmentVariables fs env).1).configLoaded = fs.configLoaded := by
  rw [LoadEnvironmentVariables]
  split
  · rfl
  · exact configLoaded_loadEnvAux env fs.flags fs

/-- C9: config loading is latched for the life of the flag set.  After
any Parse the latch is set; with the latch set, LoadConfig is a no-op
regardless of the file system (so a config file appearing later is
never read); Reset does not clear the latch; hence the config stage of
any later Parse — even after Reset, even with a new file system — skips
loading entirely. -/
theorem c9_config_loaded_latch (fs : FlagSet) (fsys fsys2 : Fsys)
    (env env2 : List (String × String)) (args : List String) :
    ((parse fs fsys env args).1).configLoaded = true ∧
    (∀ fs2 : FlagSet, fs2.configLoaded = true → LoadConfig fs2 fsys2 env2 = (fs2, none)) ∧
    (∀ fs2 : FlagSet, (FlagSet.Reset fs2).configLoaded = fs2.configLoaded) ∧
    LoadConfig (FlagSet.Reset (parse fs fsys env args).1) fsys2 env2 =
      (FlagSet.Reset (parse fs fsys env args).1, none) := by
  have hlatch : ∀ fs2 : FlagSet, fs2.configLoaded = true →
      LoadConfig fs2 fsys2 env2 = (fs2, none) := by
    intro fs2 h
    rw [LoadConfig, if_pos h]
  have hparse : ((parse fs fsys env args).1).configLoaded = true := by
    rw [parse]
    rcases h1 : LoadConfig fs fsys env with ⟨fs1, e1⟩
    have hc1 : fs1.configLoaded = true := by
      have := configLoaded_LoadConfig fs fsys env
      rw [h1] at this
      exact this
    cases e1 with
    | some e => exact hc1
    | none =>
      dsimp only
      rcases h2 : LoadEnvironmentVariables fs1 env with ⟨fs2, e2⟩
      have hc2 : fs2.configLoaded = true := by
        have := configLoaded_LoadEnvironmentVariables fs1 env
        rw [h2] at this
        rw [this]
        exact hc1
      cases e2 with
      | some e => exact hc2
      | none =>
        dsimp only
        rcases h3 : parseArguments fs2 args with ⟨fs3, e3⟩
        have hc3 : fs3.configLoaded = true := by
          have := configLoaded_parseArguments fs2 args
          rw [h3] at this
          rw [this]
          exact hc2
        cases e3 with
        | some e => exact hc3
        | none => exact hc3
  refine ⟨hparse, hlatch, fun fs2 => rfl, hlatch _ ?_⟩
  show ((parse fs fsys env args).1).configLoaded = true
  exact hparse

/-- Witness for C9 at concrete inputs: a file system in which a config
file exists at a discovery path is still ignored by the post-Parse,
post-Reset LoadConfig. -/
theorem c9_config_loaded_latch_witness :
    LoadConfig (FlagSet.Reset (parse fsCfg fsysCfg [] []).1)
      ⟨[("c.json", ConfigData.obj [("host", JsonVal.str "late")])]⟩ [] =
      (FlagSet.Reset (parse fsCfg fsysCfg [] []).1, none) :=
  (c9_config_loaded_latch fsCfg fsysCfg
    ⟨[("c.json", ConfigData.obj [("host", JsonVal.str "late")])]⟩ [] [] []).2.2.2

/-! ### Claim C6: constraint validation order and error kinds -/

theorem findSomeA_eq_none {α β : Type} (f : α → Option β) (l : List α) :
    findSomeA f l = none ↔ ∀ x ∈ l, f x = none := by
  induction l with
  | nil => simp [findSomeA]
  | cons x rest ih =>
    rw [findSomeA]
    cases hx : f x with
    | some b => simp [hx]
    | none => simpa [hx] using ih

theorem findSomeA_eq_some {α β : Type} (f : α → Option β) (l : List α) (b : β)
    (h : findSomeA f l = some b) : ∃ x ∈ l, f x = some b := by
  induction l with
  | nil => simp [findSomeA] at h
  | cons x rest ih =>
    rw [findSomeA] at h
    cases hx : f x with
    | some c =>
      rw [hx] at h
      dsimp only at h
      exact ⟨x, by simp, by rw [hx]; exact h⟩
    | none =>
      rw [hx] at h
      dsimp only at h
      obtain ⟨y, hy, hfy⟩ := ih h
      exact ⟨y, by simp [hy], hfy⟩

theorem checkDeps_eq_none (fs : FlagSet) (nm : String) (deps : List String) :
    checkDeps fs nm deps = none ↔
      ∀ dep ∈ deps, ∃ df, fs.Lookup dep = some df ∧ df.changed = true := by
  induction deps with
  | nil => simp [checkDeps]
  | cons dep rest ih =>
    rw [checkDeps]
    cases hd : fs.Lookup dep with
    | none => simp [hd]
    | some df =>
      by_cases hch : df.changed = false
      · simp [hd, hch]
      · have hch2 : df.changed = true := by
          cases h : df.changed
          · exact absurd h hch
          · rfl
        simp only [hch2, if_neg (by simp : ¬ (true = false))]
        constructor
        · intro h
          intro d hdm
          rcases List.mem_cons.mp hdm with rfl | hdm2
          · exact ⟨df, hd, hch2⟩
          · exact (ih.mp h) d hdm2
        · intro h
          exact ih.mpr (fun d hdm => h d (List.mem_cons_of_mem _ hdm))

theorem checkDeps_eq_some (fs : FlagSet) (nm : String) (deps : List String) (e : String)
    (h : checkDeps fs nm deps = some e) :
    (∃ dep ∈ deps, fs.Lookup dep = none ∧
      e = "flag --" ++ nm ++ " depends on non-existent flag --" ++ dep) ∨
    (∃ dep ∈ deps, ∃ df, fs.Lookup dep = some df ∧ df.changed = false ∧
      e = "flag --" ++ nm ++ " requires --" ++ dep ++ " to be set") := by
  induction deps with
  | nil => simp [checkDeps] at h
  | cons dep rest ih =>
    rw [checkDeps] at h
    cases hd : fs.Lookup dep with
    | none =>
      rw [hd] at h
      dsimp only at h
      left
      exact ⟨dep, by simp, hd, by cases h; rfl⟩
    | some df =>
      rw [hd] at h
      dsimp only at h
      by_cases hch : df.changed = false
      · rw [if_pos hch] at h
        right
        exact ⟨dep, by simp, df, hd, hch, by cases h; rfl⟩
      · rw [if_neg hch] at h
        rcases ih h with ⟨d, hdm, hrest⟩ | ⟨d, hdm, hrest⟩
        · exact Or.inl ⟨d, List.mem_cons_of_mem _ hdm, hrest⟩
        · exact Or.inr ⟨d, List.mem_cons_of_mem _ hdm, hrest⟩

/-- C6: after the merge, ValidateAllConstraints runs required, then
dependencies, then validators, the first failure short-circuiting; the
required check is exactly "required implies changed"; a dependency
error is exactly one of the two distinct kinds (unregistered dependency
name versus registered-but-unset dependency); the final check re-runs
every validator against the final current value. -/
theorem c6_constraint_validation_order (fs : FlagSet) :
    (∀ e, ValidateRequired fs = some e → ValidateAllConstraints fs = some e) ∧
    (ValidateRequired fs = none → ∀ e, ValidateDependencies fs = some e →
      ValidateAllConstraints fs = some e) ∧
    (ValidateRequired fs = none → ValidateDependencies fs = none →
      ValidateAllConstraints fs = ValidateAll fs) ∧
    (ValidateRequired fs = none ↔
      ∀ p ∈ fs.flags, p.2.required = true → p.2.changed = true) ∧
    (∀ e, ValidateDependencies fs = some e →
      ∃ p ∈ fs.flags, p.2.changed = true ∧
        ((∃ dep ∈ p.2.dependencies, fs.Lookup dep = none ∧
          e = "flag --" ++ p.1 ++ " depends on non-existent flag --" ++ dep) ∨
         (∃ dep ∈ p.2.dependencies, ∃ df, fs.Lookup dep = some df ∧ df.changed = false ∧
          e = "flag --" ++ p.1 ++ " requires --" ++ dep ++ " to be set"))) ∧
    (ValidateDependencies fs = none ↔
      ∀ p ∈ fs.flags, p.2.changed = true → ∀ dep ∈ p.2.dependencies,
        ∃ df, fs.Lookup dep = some df ∧ df.changed = true) ∧
    (ValidateAll fs = none ↔
      ∀ p ∈ fs.flags, ∀ vf, p.2.validator = some vf → vf p.2.value = none) := by
  refine ⟨?_, ?_, ?_, ?_, ?_, ?_, ?_⟩
  · intro e h
    rw [ValidateAllConstraints, h]
  · intro h e h2
    rw [ValidateAllConstraints, h, h2]
  · intro h h2
    rw [ValidateAllConstraints, h, h2]
  · rw [ValidateRequired, findSomeA_eq_none]
    refine forall₂_congr (fun p _ => ?_)
    by_cases hr : p.2.required
    · by_cases hc : p.2.changed
      · simp [hr, hc]
      · simp [hr, hc]
    · simp [hr]
  · intro e h
    rw [ValidateDependencies] at h
    obtain ⟨p, hpm, hp⟩ := findSomeA_eq_some _ _ _ h
    by_cases hcd : p.2.changed ∧ p.2.dependencies ≠ []
    · rw [if_pos hcd] at hp
      refine ⟨p, hpm, ?_, checkDeps_eq_some fs p.1 p.2.dependencies e hp⟩
      cases hch : p.2.changed
      · exact absurd hch (by simp [hcd.1])
      · rfl
    · rw [if_neg hcd] at hp
      exact absurd hp (by simp)
  · rw [ValidateDependencies, findSomeA_eq_none]
    constructor
    · intro h p hpm hch dep hdep
      have := h p hpm
      by_cases hd : p.2.dependencies = []
      · exact absurd (hd ▸ hdep) (List.not_mem_nil dep)
      · rw [if_pos ⟨by simp [hch], hd⟩] at this
        exact (checkDeps_eq_none fs p.1 p.2.dependencies).mp this dep hdep
    · intro h p hpm
      by_cases hcd : p.2.changed ∧ p.2.dependencies ≠ []
      · rw [if_pos hcd]
        refine (checkDeps_eq_none fs p.1 p.2.dependencies).mpr ?_
        intro dep hdep
        have hch : p.2.changed = true := by
          cases hc2 : p.2.changed
          · exact absurd hc2 (by simp [hcd.1])
          · rfl
        obtain ⟨df, hdf, hdfc⟩ := h p hpm hch dep hdep
        exact ⟨df, hdf, hdfc⟩
      · rw [if_neg hcd]
  · rw [ValidateAll, findSomeA_eq_none]
    refine forall₂_congr (fun p _ => ?_)
    cases hv : p.2.validator with
    | none => simp [hv]
    | some vf =>
      have hval : p.2.Validate = vf p.2.value := by
        rw [Flag.Validate, hv]
      rw [hval]
      cases hr : vf p.2.value with
      | none => simp [hv, hr]
      | some e =>
        simp only [hv, hr]
        constructor
        · intro h
          exact absurd h (by simp)
        · intro h
          have := h vf rfl
          rw [this] at hr
          cases hr

/-- Witness for C6: a required unset flag wins over a simultaneously
broken dependency (first-failure ordering), at a concrete flag set. -/
theorem c6_constraint_validation_order_witness :
    ValidateAllConstraints fsC6c = some "required flag --alpha not provided" :=
  (c6_constraint_validation_order fsC6c).1 "required flag --alpha not provided" (by decide)

/-! ### Claim C1: CLI assignments always win -/

theorem lookupFlag_updateFlag (fs : FlagSet) (nm : String) (fl : Flag) (k : String) :
    (fs.updateFlag nm fl).lookupFlag k =
      if k = nm ∧ (fs.lookupFlag nm).isSome then some fl else fs.lookupFlag k :=
  lookupA_updateA fs.flags nm fl k

theorem setFlagValueByType_ok (fl : Flag) (v nm : String) (fl1 : Flag)
    (h : setFlagValueByType fl v nm = Except.ok fl1) :
    ∃ w, fl1 = { fl with value := w } ∧ convValue fl.flagType v = some w := by
  rw [setFlagValueByType] at h
  rw [convValue]
  split_ifs at h ⊢ with h1 h2 h3 h4 h5 h6
  · rw [setStringValue] at h
    cases h
    exact ⟨Value.s v, rfl, rfl⟩
  · rw [setIntValue] at h
    cases hA : goAtoi v with
    | none => rw [hA] at h; cases h
    | some iv =>
      rw [hA] at h
      cases h
      exact ⟨Value.i iv, rfl, by simp [hA]⟩
  · rw [setBoolValue] at h
    cases hA : goParseBool v with
    | none => rw [hA] at h; cases h
    | some bv =>
      rw [hA] at h
      cases h
      exact ⟨Value.b bv, rfl, by simp [hA]⟩
  · rw [setDurationValue] at h
    cases hA : goParseDuration v with
    | none => rw [hA] at h; cases h
    | some dv =>
      rw [hA] at h
      cases h
      exact ⟨Value.d dv, rfl, by simp [hA]⟩
  · rw [setFloat64Value] at h
    cases hA : goParseFloat v with
    | none => rw [hA] at h; cases h
    | some fv =>
      rw [hA] at h
      cases h
      exact ⟨Value.f fv, rfl, by simp [hA]⟩
  · rw [setStringSliceValue] at h
    cases h
    exact ⟨Value.sl (parseStringSlice v), rfl, rfl⟩

theorem setStringValueFromConfig_ok (fl : Flag) (v : JsonVal) (nm : String) (fl1 : Flag)
    (h : setStringValueFromConfig fl v nm = Except.ok fl1) :
    ∃ w, fl1 = { fl with value := w } := by
  cases v <;> cases h
  exact ⟨_, rfl⟩

theorem setIntValueFromConfig_ok (fl : Flag) (v : JsonVal) (nm : String) (fl1 : Flag)
    (h : setIntValueFromConfig fl v nm = Except.ok fl1) :
    ∃ w, fl1 = { fl with value := w } := by
  cases v <;> cases h
  exact ⟨_, rfl⟩

theorem setBoolValueFromConfig_ok (fl : Flag) (v : JsonVal) (nm : String) (fl1 : Flag)
    (h : setBoolValueFromConfig fl v nm = Except.ok fl1) :
    ∃ w, fl1 = { fl with value := w } := by
  cases v <;> cases h
  exact ⟨_, rfl⟩

theorem setFloat64ValueFromConfig_ok (fl : Flag) (v : JsonVal) (nm : String) (fl1 : Flag)
    (h : setFloat64ValueFromConfig fl v nm = Except.ok fl1) :
    ∃ w, fl1 = { fl with value := w } := by
  cases v <;> cases h
  exact ⟨_, rfl⟩

theorem setStringSliceValueFromConfig_ok (fl : Flag) (v : JsonVal) (nm : String) (fl1 : Flag)
    (h : setStringSliceValueFromConfig fl v nm = Except.ok fl1) :
    ∃ w, fl1 = { fl with value := w } := by
  cases v with
  | arr elems =>
    rw [setStringSliceValueFromConfig] at h
    cases hs : stringsOfJson nm elems with
    | error e => rw [hs] at h; cases h
    | ok l =>
      rw [hs] at h
      cases h
      exact ⟨_, rfl⟩
  | str s => cases h
  | num q => cases h
  | boolv b => cases h
  | obj => cases h
  | null => cases h

theorem setConfigValueByType_ok (fl : Flag) (v : JsonVal) (nm : String) (fl1 : Flag)
    (h : setConfigValueByType fl v nm = Except.ok fl1) :
    ∃ w, fl1 = { fl with value := w } := by
  rw [setConfigValueByType] at h
  split_ifs at h
  · exact setStringValueFromConfig_ok fl v nm fl1 h
  · exact setIntValueFromConfig_ok fl v nm fl1 h
  · exact setBoolValueFromConfig_ok fl v nm fl1 h
  · exact setFloat64ValueFromConfig_ok fl v nm fl1 h
  · exact setStringSliceValueFromConfig_ok fl v nm fl1 h

theorem shapeEq_refl (fs : FlagSet) : shapeEq fs fs := ⟨rfl, fun _ => rfl⟩

theorem shapeEq_trans {fs1 fs2 fs3 : FlagSet} (h1 : shapeEq fs1 fs2) (h2 : shapeEq fs2 fs3) :
    shapeEq fs1 fs3 :=
  ⟨h2.1.trans h1.1, fun k => (h2.2 k).trans (h1.2 k)⟩

/-- Updating an existing key with a flag of unchanged name and kind
preserves the shape. -/
theorem shapeEq_updateFlag (fs : FlagSet) (nm : String) (fl0 fl : Flag)
    (hlk : fs.lookupFlag nm = some fl0) (hname : fl.name = fl0.name)
    (htype : fl.flagType = fl0.flagType) :
    shapeEq fs (fs.updateFlag nm fl) := by
  refine ⟨rfl, fun k => ?_⟩
  show ((fs.updateFlag nm fl).lookupFlag k).map _ = _
  rw [lookupFlag_updateFlag]
  by_cases hk : k = nm
  · subst hk
    rw [if_pos ⟨rfl, by rw [hlk]; rfl⟩, hlk]
    simp [hname, htype]
  · rw [if_neg (fun hc => hk hc.1)]

theorem wfNames_updateFlag (fs : FlagSet) (nm : String) (fl : Flag)
    (hwf : wfNames fs) (hname : fl.name = nm) :
    wfNames (fs.updateFlag nm fl) := by
  intro p hp
  obtain ⟨q, hq, hqe⟩ := List.mem_map.mp hp
  by_cases hqk : q.1 = nm
  · rw [if_pos hqk] at hqe
    rw [← hqe]
    simpa [hname] using hqk.symm
  · rw [if_neg hqk] at hqe
    rw [← hqe]
    exact hwf q hq

/-- What a successful setFlagValue does: the converted value is stored
at nm with changed set, everything else untouched. -/
theorem setFlagValue_ok_spec (fs : FlagSet) (nm v : String) (fs1 : FlagSet)
    (h : setFlagValue fs nm v = (fs1, none)) :
    ∃ fl0 w, fs.lookupFlag nm = some fl0 ∧ convValue fl0.flagType v = some w ∧
      fs1 = fs.updateFlag nm { fl0 with value := w, changed := true } := by
  rw [setFlagValue] at h
  cases hlk : fs.lookupFlag nm with
  | none => rw [hlk] at h; cases h
  | some fl0 =>
    rw [hlk] at h
    dsimp only at h
    cases hbt : setFlagValueByType fl0 v nm with
    | error e => rw [hbt] at h; cases h
    | ok fl1 =>
      rw [hbt] at h
      dsimp only at h
      obtain ⟨w, rfl, hw⟩ := setFlagValueByType_ok fl0 v nm fl1 hbt
      exact ⟨fl0, w, rfl, hw, (congrArg Prod.fst h).symm⟩

/-- setFlagValue (also when it fails) preserves the shape. -/
theorem setFlagValue_shape (fs : FlagSet) (nm v : String) :
    shapeEq fs ((setFlagValue fs nm v).1) := by
  rw [setFlagValue]
  cases hlk : fs.lookupFlag nm with
  | none => exact shapeEq_refl fs
  | some fl0 =>
    dsimp only
    cases hbt : setFlagValueByType fl0 v nm with
    | error e => exact shapeEq_refl fs
    | ok fl1 =>
      dsimp only
      obtain ⟨w, rfl, _⟩ := setFlagValueByType_ok fl0 v nm fl1 hbt
      exact shapeEq_updateFlag fs nm fl0 _ hlk rfl rfl

theorem setFlagValue_wf (fs : FlagSet) (nm v : String) (hwf : wfNames fs) :
    wfNames ((setFlagValue fs nm v).1) := by
  rw [setFlagValue]
  cases hlk : fs.lookupFlag nm with
  | none => exact hwf
  | some fl0 =>
    dsimp only
    cases hbt : setFlagValueByType fl0 v nm with
    | error e => exact hwf
    | ok fl1 =>
      dsimp only
      obtain ⟨w, rfl, _⟩ := setFlagValueByType_ok fl0 v nm fl1 hbt
      refine wfNames_updateFlag fs nm _ hwf ?_
      show fl0.name = nm
      exact hwf (nm, fl0) (lookupA_mem fs.flags nm fl0 hlk)

/-- The CLI step function reads only the shape of the flag set. -/
theorem cliStep_congr (fs fs2 : FlagSet) (args : List String) (i : Nat)
    (h : shapeEq fs fs2) : cliStep fs2 args i = cliStep fs args i := by
  rw [cliStep, cliStep]
  dsimp only
  rw [h.1]
  by_cases h1 : goHasPfx (args.getD i "") "-" = false
  · rw [if_pos h1, if_pos h1]
  · rw [if_neg h1, if_neg h1]
    by_cases h2 : isHelpFlag (args.getD i "") = true
    · rw [if_pos h2, if_pos h2]
    · rw [if_neg h2, if_neg h2]
      by_cases h3 : isShortFlag (args.getD i "") = true
      · rw [if_pos h3, if_pos h3]
        cases hsm : lookupA fs.shortMap (String.mk [(args.getD i "").data.getD 1 ' ']) with
        | none => rfl
        | some ln =>
          have hmap := h.2 ln
          cases hf : fs.lookupFlag ln with
          | none =>
            rw [hf] at hmap
            have h2f : fs2.lookupFlag ln = none := Option.map_eq_none'.mp (hmap.trans rfl)
            show (match fs2.lookupFlag ln with
              | none => (none, 0)
              | some flag => _) = (match fs.lookupFlag ln with
              | none => (none, 0)
              | some flag => _)
            rw [hf, h2f]
          | some f =>
            rw [hf] at hmap
            obtain ⟨f2, hf2, hnt⟩ := Option.map_eq_some'.mp hmap
            have hname : f2.name = f.name := (Prod.mk.injEq _ _ _ _ ▸ hnt).1
            have htype : f2.flagType = f.flagType := (Prod.mk.injEq _ _ _ _ ▸ hnt).2
            show (match fs2.lookupFlag ln with
              | none => (none, 0)
              | some flag => _) = (match fs.lookupFlag ln with
              | none => (none, 0)
              | some flag => _)
            rw [hf, hf2]
            dsimp only
            rw [hname, htype]
      · rw [if_neg h3, if_neg h3]
        by_cases h4 : isLongFlag (args.getD i "") = true
        · rw [if_pos h4, if_pos h4]
          cases hsp : splitEq (goDrop (args.getD i "") 2) with
          | some p => rfl
          | none =>
            dsimp only
            by_cases h5 : i + 1 < args.length ∧
                goHasPfx (args.getD (i + 1) "") "--" = false
            · rw [if_pos h5, if_pos h5]
            · rw [if_neg h5, if_neg h5]
              have hmap := h.2 (goDrop (args.getD i "") 2)
              cases hf : fs.lookupFlag (goDrop (args.getD i "") 2) with
              | none =>
                rw [hf] at hmap
                have h2f : fs2.lookupFlag (goDrop (args.getD i "") 2) = none :=
                  Option.map_eq_none'.mp (hmap.trans rfl)
                rw [h2f]
              | some f =>
                rw [hf] at hmap
                obtain ⟨f2, hf2, hnt⟩ := Option.map_eq_some'.mp hmap
                have htype : f2.flagType = f.flagType := (Prod.mk.injEq _ _ _ _ ▸ hnt).2
                rw [hf2]
                dsimp only
                rw [htype]
        · rw [if_neg h4, if_neg h4]

/-- The CLI trace reads only the shape of the flag set. -/
theorem lastCliAux_congr (args : List String) (fs fs2 : FlagSet) (h : shapeEq fs fs2) :
    ∀ (gas i : Nat) (n : String), lastCliAux fs2 args gas i n = lastCliAux fs args gas i n := by
  intro gas
  induction gas with
  | zero => intro i n; rfl
  | succ g ih =>
    intro i n
    rw [lastCliAux, lastCliAux]
    by_cases hi : i < args.length
    · rw [if_pos hi, if_pos hi, cliStep_congr fs fs2 args i h]
      rcases cliStep fs args i with ⟨ev, consumed⟩
      dsimp only
      rw [ih]
    · rw [if_neg hi, if_neg hi]

/-- Config and environment stages preserve the shape and the name invariant. -/
theorem setFlagValueFromConfig_shape_wf (fs : FlagSet) (nm : String) (v : JsonVal)
    (hwf : wfNames fs) :
    shapeEq fs ((setFlagValueFromConfig fs nm v).1) ∧
      wfNames ((setFlagValueFromConfig fs nm v).1) := by
  rw [setFlagValueFromConfig]
  cases hlk : fs.lookupFlag nm with
  | none => exact ⟨shapeEq_refl fs, hwf⟩
  | some fl0 =>
    dsimp only
    cases hbt : setConfigValueByType fl0 v nm with
    | error e => exact ⟨shapeEq_refl fs, hwf⟩
    | ok fl1 =>
      dsimp only
      obtain ⟨w, rfl⟩ := setConfigValueByType_ok fl0 v nm fl1 hbt
      refine ⟨shapeEq_updateFlag fs nm fl0 _ hlk rfl rfl, ?_⟩
      exact wfNames_updateFlag fs nm _ hwf (hwf (nm, fl0) (lookupA_mem fs.flags nm fl0 hlk))

theorem applyConfig_shape_wf (entries : List (String × JsonVal)) :
    ∀ fs : FlagSet, wfNames fs →
      shapeEq fs ((applyConfig fs entries).1) ∧ wfNames ((applyConfig fs entries).1) := by
  induction entries with
  | nil => intro fs hwf; exact ⟨shapeEq_refl fs, hwf⟩
  | cons p rest ih =>
    intro fs hwf
    rw [applyConfig]
    cases hlk : fs.Lookup p.1 with
    | none => exact ih fs hwf
    | some fl =>
      dsimp only
      by_cases hch : fl.changed = true
      · rw [if_pos hch]
        exact ih fs hwf
      · rw [if_neg hch]
        rcases hsc : setFlagValueFromConfig fs p.1 p.2 with ⟨fs1, e1⟩
        have hsw := setFlagValueFromConfig_shape_wf fs p.1 p.2 hwf
        rw [hsc] at hsw
        cases e1 with
        | some e => exact hsw
        | none =>
          dsimp only
          obtain ⟨hs1, hw1⟩ := hsw
          obtain ⟨hs2, hw2⟩ := ih fs1 hw1
          exact ⟨shapeEq_trans hs1 hs2, hw2⟩

theorem loadConfigFromFile_shape_wf (fs : FlagSet) (fsys : Fsys) (path : String)
    (hwf : wfNames fs) :
    shapeEq fs ((loadConfigFromFile fs fsys path).1) ∧
      wfNames ((loadConfigFromFile fs fsys path).1) := by
  rw [loadConfigFromFile]
  split
  · exact ⟨shapeEq_refl fs, hwf⟩
  · split
    · exact ⟨shapeEq_refl fs, hwf⟩
    · split
      · exact ⟨shapeEq_refl fs, hwf⟩
      · exact ⟨shapeEq_refl fs, hwf⟩
      · exact applyConfig_shape_wf _ fs hwf

theorem LoadConfig_shape_wf (fs : FlagSet) (fsys : Fsys) (env : List (String × String))
    (hwf : wfNames fs) :
    shapeEq fs ((LoadConfig fs fsys env).1) ∧ wfNames ((LoadConfig fs fsys env).1) := by
  rw [LoadConfig]
  split
  · exact ⟨shapeEq_refl fs, hwf⟩
  · dsimp only
    split
    · exact ⟨⟨rfl, fun k => rfl⟩, hwf⟩
    · split
      · exact ⟨⟨rfl, fun k => rfl⟩, hwf⟩
      · have h1 : shapeEq fs { fs with configLoaded := true } := ⟨rfl, fun k => rfl⟩
        have h2 := loadConfigFromFile_shape_wf { fs with configLoaded := true } fsys
          (findConfigFile { fs with configLoaded := true } fsys env) hwf
        exact ⟨shapeEq_trans h1 h2.1, h2.2⟩

theorem loadEnvAux_shape_wf (env : List (String × String)) :
    ∀ (entries : List (String × Flag)) (fs : FlagSet), wfNames fs →
      shapeEq fs ((loadEnvAux fs env entries).1) ∧ wfNames ((loadEnvAux fs env entries).1) := by
  intro entries
  induction entries with
  | nil => intro fs hwf; exact ⟨shapeEq_refl fs, hwf⟩
  | cons p rest ih =>
    intro fs hwf
    rw [loadEnvAux]
    dsimp only
    split
    · exact ih fs hwf
    · split
      · exact ih fs hwf
      · split
        · exact ih fs hwf
        · split
          · exact ih fs hwf
          · rename_i flag hflag hch hev hval
            rcases hsv : setFlagValue fs p.1 (getenv env (getEnvVarName fs p.1 flag))
              with ⟨fs1, e1⟩
            have hs1 : shapeEq fs fs1 := by
              have := setFlagValue_shape fs p.1 (getenv env (getEnvVarName fs p.1 flag))
              rw [hsv] at this
              exact this
            have hw1 : wfNames fs1 := by
              have := setFlagValue_wf fs p.1 (getenv env (getEnvVarName fs p.1 flag)) hwf
              rw [hsv] at this
              exact this
            cases e1 with
            | some e => exact ⟨hs1, hw1⟩
            | none =>
              dsimp only
              obtain ⟨hs2, hw2⟩ := ih fs1 hw1
              exact ⟨shapeEq_trans hs1 hs2, hw2⟩

theorem LoadEnvironmentVariables_shape_wf (fs : FlagSet) (env : List (String × String))
    (hwf : wfNames fs) :
    shapeEq fs ((LoadEnvironmentVariables fs env).1) ∧
      wfNames ((LoadEnvironmentVariables fs env).1) := by
  rw [LoadEnvironmentVariables]
  split
  · exact ⟨shapeEq_refl fs, hwf⟩
  · exact loadEnvAux_shape_wf env fs.flags fs hwf

/-- A successful setFlagValue call is exactly one CLI raw assignment:
shape and names preserved, all other keys untouched, and the target key
holds the converted value with changed set. -/
theorem setFlagValue_event_spec (fs : FlagSet) (nm v : String) (fs1 : FlagSet)
    (h : setFlagValue fs nm v = (fs1, none)) (hwf : wfNames fs) :
    shapeEq fs fs1 ∧ wfNames fs1 ∧
    (∀ k, k ≠ nm → fs1.lookupFlag k = fs.lookupFlag k) ∧
    (∃ fl, fs1.lookupFlag nm = some fl ∧ fl.changed = true ∧
      cliAssignedValue fl.flagType (CliVal.raw v) = some fl.value) := by
  obtain ⟨fl0, w, hlk, hconv, rfl⟩ := setFlagValue_ok_spec fs nm v fs1 h
  have hsome : (fs.lookupFlag nm).isSome := by rw [hlk]; rfl
  refine ⟨?_, ?_, ?_, ?_⟩
  · exact shapeEq_updateFlag fs nm fl0 _ hlk rfl rfl
  · exact wfNames_updateFlag fs nm _ hwf (hwf (nm, fl0) (lookupA_mem fs.flags nm fl0 hlk))
  · intro k hk
    rw [lookupFlag_updateFlag, if_neg (fun hc => hk hc.1)]
  · refine ⟨{ fl0 with value := w, changed := true }, ?_, rfl, ?_⟩
    · rw [lookupFlag_updateFlag, if_pos ⟨rfl, hsome⟩]
    · show convValue fl0.flagType v = some w
      exact hconv

/-- The direct update of a boolean short flag is one boolTrue CLI
assignment. -/
theorem shortBool_event_spec (fs : FlagSet) (flag : Flag)
    (hlk : fs.lookupFlag flag.name = some flag) (hwf : wfNames fs) :
    shapeEq fs (fs.updateFlag flag.name { flag with value := Value.b true, changed := true }) ∧
    wfNames (fs.updateFlag flag.name { flag with value := Value.b true, changed := true }) ∧
    (∀ k, k ≠ flag.name →
      (fs.updateFlag flag.name { flag with value := Value.b true, changed := true }).lookupFlag k =
        fs.lookupFlag k) ∧
    (∃ fl, (fs.updateFlag flag.name
        { flag with value := Value.b true, changed := true }).lookupFlag flag.name = some fl ∧
      fl.changed = true ∧ cliAssignedValue fl.flagType CliVal.boolTrue = some fl.value) := by
  have hsome : (fs.lookupFlag flag.name).isSome := by rw [hlk]; rfl
  refine ⟨?_, ?_, ?_, ?_⟩
  · exact shapeEq_updateFlag fs flag.name flag _ hlk rfl rfl
  · exact wfNames_updateFlag fs flag.name _ hwf rfl
  · intro k hk
    rw [lookupFlag_updateFlag, if_neg (fun hc => hk hc.1)]
  · refine ⟨{ flag with value := Value.b true, changed := true }, ?_, rfl, rfl⟩
    rw [lookupFlag_updateFlag, if_pos ⟨rfl, hsome⟩]

/-- Resolving a short key yields a flag stored under its own name. -/
theorem shortLookup_name (fs : FlagSet) (key : String) (flag : Flag) (hwf : wfNames fs)
    (h : (lookupA fs.shortMap key).bind fs.lookupFlag = some flag) :
    fs.lookupFlag flag.name = some flag := by
  cases hsm : lookupA fs.shortMap key with
  | none => rw [hsm] at h; cases h
  | some ln =>
    rw [hsm] at h
    dsimp only [Option.bind] at h
    have hname : flag.name = ln := hwf (ln, flag) (lookupA_mem fs.flags ln flag h)
    rw [hname]
    exact h

/-- Correspondence of one parser step with one trace step: a step that
returns ok consumed the tokens the trace says and performed exactly the
assignment the trace records. -/
theorem processArgument_ok_spec (fs : FlagSet) (args : List String) (i : Nat)
    (fs1 : FlagSet) (c : Nat) (hwf : wfNames fs)
    (h : processArgument fs args i = (fs1, Except.ok c)) :
    (cliStep fs args i).2 = c ∧
    shapeEq fs fs1 ∧ wfNames fs1 ∧
    (match (cliStep fs args i).1 with
     | none => fs1 = fs
     | some (m, v) =>
       (∀ k, k ≠ m → fs1.lookupFlag k = fs.lookupFlag k) ∧
       (∃ fl, fs1.lookupFlag m = some fl ∧ fl.changed = true ∧
         cliAssignedValue fl.flagType v = some fl.value)) := by
  rw [processArgument] at h
  try dsimp only at h
  by_cases h1 : goHasPfx (args.getD i "") "-" = false
  · rw [if_pos h1] at h
    have hcs : cliStep fs args i = (none, 0) := by
      rw [cliStep]; simp only [if_pos h1]
    obtain ⟨rfl, hc⟩ := Prod.mk.injEq _ _ _ _ |>.mp h
    obtain rfl : 0 = c := by cases hc; rfl
    rw [hcs]
    exact ⟨rfl, shapeEq_refl fs, hwf, rfl⟩
  · rw [if_neg h1] at h
    by_cases h2 : isHelpFlag (args.getD i "") = true
    · rw [if_pos h2] at h
      exact absurd (congrArg Prod.snd h) (by simp)
    · rw [if_neg h2] at h
      by_cases h3 : isShortFlag (args.getD i "") = true
      · rw [if_pos h3] at h
        rw [parseShortFlag] at h
        try dsimp only at h
        cases hres : (lookupA fs.shortMap
            (String.mk [(args.getD i "").data.getD 1 ' '])).bind fs.lookupFlag with
        | none =>
          try rw [hres] at h
          exact absurd (congrArg Prod.snd h) (by simp)
        | some flag =>
          try rw [hres] at h
          try dsimp only at h
          have hlk := shortLookup_name fs _ flag hwf hres
          by_cases hbool : flag.flagType = "bool"
          · rw [if_pos hbool] at h
            have hcs : cliStep fs args i = (some (flag.name, CliVal.boolTrue), 0) := by
              rw [cliStep]
              simp only [if_neg h1, if_neg h2, if_pos h3, hres, if_pos hbool]
            obtain ⟨rfl, hc⟩ := Prod.mk.injEq _ _ _ _ |>.mp h.symm
            obtain rfl : 0 = c := by cases hc; rfl
            rw [hcs]
            obtain ⟨hs, hw, hframe, hev⟩ := shortBool_event_spec fs flag hlk hwf
            exact ⟨rfl, hs, hw, hframe, hev⟩
          · rw [if_neg hbool] at h
            by_cases hlen : args.length ≤ i + 1
            · rw [if_pos hlen] at h
              exact absurd (congrArg Prod.snd h) (by simp)
            · rw [if_neg hlen] at h
              rcases hsv : setFlagValue fs flag.name (args.getD (i + 1) "") with ⟨fs1x, e1⟩
              rw [hsv] at h
              cases e1 with
              | some e => exact absurd (congrArg Prod.snd h) (by simp)
              | none =>
                dsimp only at h
                have hcs : cliStep fs args i =
                    (some (flag.name, CliVal.raw (args.getD (i + 1) "")), 1) := by
                  rw [cliStep]
                  simp only [if_neg h1, if_neg h2, if_pos h3, hres, if_neg hbool,
                    if_neg hlen]
                obtain ⟨rfl, hc⟩ := Prod.mk.injEq _ _ _ _ |>.mp h.symm
                obtain rfl : 1 = c := by cases hc; rfl
                rw [hcs]
                obtain ⟨hs, hw, hframe, hev⟩ :=
                  setFlagValue_event_spec fs flag.name (args.getD (i + 1) "") _ hsv hwf
                exact ⟨rfl, hs, hw, hframe, hev⟩
      · rw [if_neg h3] at h
        by_cases h4 : isLongFlag (args.getD i "") = true
        · rw [if_pos h4] at h
          rw [parseLongFlag] at h
          try dsimp only at h
          cases hsp : splitEq (goDrop (args.getD i "") 2) with
          | some p =>
            obtain ⟨fn, fv⟩ := p
            try rw [hsp] at h
            try dsimp only at h
            rcases hsv : setFlagValue fs fn fv with ⟨fs1x, e1⟩
            rw [hsv] at h
            cases e1 with
            | some e => exact absurd (congrArg Prod.snd h) (by simp)
            | none =>
              dsimp only at h
              have hcs : cliStep fs args i = (some (fn, CliVal.raw fv), 0) := by
                rw [cliStep]
                simp only [if_neg h1, if_neg h2, if_neg h3, if_pos h4, hsp]
              obtain ⟨rfl, hc⟩ := Prod.mk.injEq _ _ _ _ |>.mp h.symm
              obtain rfl : 0 = c := by cases hc; rfl
              rw [hcs]
              obtain ⟨hs, hw, hframe, hev⟩ := setFlagValue_event_spec fs fn fv _ hsv hwf
              exact ⟨rfl, hs, hw, hframe, hev⟩
          | none =>
            try rw [hsp] at h
            try dsimp only at h
            by_cases h5 : i + 1 < args.length ∧
                goHasPfx (args.getD (i + 1) "") "--" = false
            · rw [if_pos h5] at h
              rcases hsv : setFlagValue fs (goDrop (args.getD i "") 2)
                  (args.getD (i + 1) "") with ⟨fs1x, e1⟩
              rw [hsv] at h
              cases e1 with
              | some e => exact absurd (congrArg Prod.snd h) (by simp)
              | none =>
                dsimp only at h
                have hcs : cliStep fs args i =
                    (some (goDrop (args.getD i "") 2,
                      CliVal.raw (args.getD (i + 1) "")), 1) := by
                  rw [cliStep]
                  simp only [if_neg h1, if_neg h2, if_neg h3, if_pos h4, hsp, if_pos h5]
                obtain ⟨rfl, hc⟩ := Prod.mk.injEq _ _ _ _ |>.mp h.symm
                obtain rfl : 1 = c := by cases hc; rfl
                rw [hcs]
                obtain ⟨hs, hw, hframe, hev⟩ :=
                  setFlagValue_event_spec fs (goDrop (args.getD i "") 2)
                    (args.getD (i + 1) "") _ hsv hwf
                exact ⟨rfl, hs, hw, hframe, hev⟩
            · rw [if_neg h5] at h
              cases hlf : fs.lookupFlag (goDrop (args.getD i "") 2) with
              | none =>
                try rw [hlf] at h
                exact absurd (congrArg Prod.snd h) (by simp)
              | some flag =>
                try rw [hlf] at h
                try dsimp only at h
                by_cases hbool : flag.flagType = "bool"
                · rw [if_pos hbool] at h
                  rcases hsv : setFlagValue fs (goDrop (args.getD i "") 2) "true"
                    with ⟨fs1x, e1⟩
                  rw [hsv] at h
                  cases e1 with
                  | some e => exact absurd (congrArg Prod.snd h) (by simp)
                  | none =>
                    dsimp only at h
                    have hcs : cliStep fs args i =
                        (some (goDrop (args.getD i "") 2, CliVal.raw "true"), 0) := by
                      rw [cliStep]
                      simp only [if_neg h1, if_neg h2, if_neg h3, if_pos h4, hsp,
                        if_neg h5, hlf, if_pos hbool]
                    obtain ⟨rfl, hc⟩ := Prod.mk.injEq _ _ _ _ |>.mp h.symm
                    obtain rfl : 0 = c := by cases hc; rfl
                    rw [hcs]
                    obtain ⟨hs, hw, hframe, hev⟩ :=
                      setFlagValue_event_spec fs (goDrop (args.getD i "") 2) "true" _ hsv hwf
                    exact ⟨rfl, hs, hw, hframe, hev⟩
                · rw [if_neg hbool] at h
                  exact absurd (congrArg Prod.snd h) (by simp)
        · rw [if_neg h4] at h
          have hcs : cliStep fs args i = (none, 0) := by
            rw [cliStep]
            simp only [if_neg h1, if_neg h2, if_neg h3, if_neg h4]
          obtain ⟨rfl, hc⟩ := Prod.mk.injEq _ _ _ _ |>.mp h
          obtain rfl : 0 = c := by cases hc; rfl
          rw [hcs]
          exact ⟨rfl, shapeEq_refl fs, hwf, rfl⟩

/-- Over a whole successful token walk, a flag the trace never assigns
is untouched, and a flag it assigns holds the conversion of the last
traced value with changed set. -/
theorem parseArgumentsBounded_last_cli (args : List String) :
    ∀ (gas : Nat) (fs : FlagSet) (i : Nat) (fs' : FlagSet),
    wfNames fs →
    parseArgumentsBounded args gas fs i = (fs', none) →
    ∀ n, (match lastCliAux fs args gas i n with
     | none => fs'.lookupFlag n = fs.lookupFlag n
     | some cv => ∃ fl, fs'.lookupFlag n = some fl ∧ fl.changed = true ∧
         cliAssignedValue fl.flagType cv = some fl.value) := by
  intro gas
  induction gas with
  | zero =>
    intro fs i fs' hwf h n
    obtain ⟨rfl, -⟩ := Prod.mk.injEq _ _ _ _ |>.mp h
    exact rfl
  | succ g ih =>
    intro fs i fs' hwf h n
    rw [parseArgumentsBounded] at h
    rw [lastCliAux]
    by_cases hi : i < args.length
    · rw [if_pos hi] at h ⊢
      rcases hpa : processArgument fs args i with ⟨fs1, r⟩
      rw [hpa] at h
      cases r with
      | error e => exact absurd (congrArg Prod.snd h) (by simp)
      | ok consumed =>
        dsimp only at h
        obtain ⟨hc2, hs, hw, hev⟩ := processArgument_ok_spec fs args i fs1 consumed hwf hpa
        have ihh := ih fs1 (i + consumed + 1) fs' hw h n
        have hcongr := lastCliAux_congr args fs fs1 hs g (i + consumed + 1) n
        rw [hcongr] at ihh
        rcases hcs : cliStep fs args i with ⟨ev, c2⟩
        rw [hcs] at hc2 hev
        dsimp only at hc2 hev
        subst hc2
        dsimp only
        cases htail : lastCliAux fs args g (i + c2 + 1) n with
        | some v =>
          rw [htail] at ihh
          exact ihh
        | none =>
          rw [htail] at ihh
          cases ev with
          | none =>
            dsimp only
            rw [ihh, hev]
          | some mv =>
            obtain ⟨m, v⟩ := mv
            dsimp only
            by_cases hmn : m = n
            · rw [if_pos hmn]
              subst hmn
              obtain ⟨hframe, fl, hfl, hch, hconv⟩ := hev
              exact ⟨fl, by rw [ihh]; exact hfl, hch, hconv⟩
            · rw [if_neg hmn]
              obtain ⟨hframe, -⟩ := hev
              rw [ihh, hframe n (fun hh => hmn hh.symm)]
    · rw [if_neg hi] at h ⊢
      obtain ⟨rfl, -⟩ := Prod.mk.injEq _ _ _ _ |>.mp h
      rfl

/-- C1: for every flag assigned by the CLI during a successful Parse,
the final value is the conversion of the last CLI-supplied raw value
(true for a short boolean), with changed set — whatever the config file
and the environment supplied: they run first and the tokenizer
overwrites unconditionally.  `lastCliVal` is computed from the initial
flag set and the argument list alone, so the conclusion is independent
of fsys and env. -/
theorem c1_cli_priority (fs : FlagSet) (fsys : Fsys) (env : List (String × String))
    (args : List String) (fs' : FlagSet) (hwf : wfNames fs)
    (hp : parse fs fsys env args = (fs', none)) (n : String) (cv : CliVal)
    (hlast : lastCliVal fs args n = some cv) :
    ∃ fl, fs'.lookupFlag n = some fl ∧ fl.changed = true ∧
      cliAssignedValue fl.flagType cv = some fl.value := by
  unfold parse at hp
  rcases h1 : LoadConfig fs fsys env with ⟨fs1, e1⟩
  rw [h1] at hp
  have hsw1 := LoadConfig_shape_wf fs fsys env hwf
  rw [h1] at hsw1
  cases e1 with
  | some e => exact absurd (congrArg Prod.snd hp) (by simp)
  | none =>
    dsimp only at hp
    rcases h2 : LoadEnvironmentVariables fs1 env with ⟨fs2, e2⟩
    rw [h2] at hp
    have hsw2 := LoadEnvironmentVariables_shape_wf fs1 env hsw1.2
    rw [h2] at hsw2
    cases e2 with
    | some e => exact absurd (congrArg Prod.snd hp) (by simp)
    | none =>
      dsimp only at hp
      rcases h3 : parseArguments fs2 args with ⟨fs3, e3⟩
      rw [h3] at hp
      cases e3 with
      | some e => exact absurd (congrArg Prod.snd hp) (by simp)
      | none =>
        dsimp only at hp
        obtain ⟨rfl, -⟩ := Prod.mk.injEq _ _ _ _ |>.mp hp
        rw [parseArguments_eq_bounded] at h3
        have hmain := parseArgumentsBounded_last_cli args args.length fs2 0 fs3
          hsw2.2 h3 n
        have hshape : shapeEq fs fs2 := shapeEq_trans hsw1.1 hsw2.1
        rw [lastCliAux_congr args fs fs2 hshape args.length 0 n] at hmain
        rw [show lastCliAux fs args args.length 0 n = some cv from hlast] at hmain
        exact hmain

/-- Witness for C1: config supplies port 9000, the environment supplies
PORT=7000, the CLI supplies --port 3000; the final value is 3000. -/
theorem c1_cli_priority_witness :
    ∃ fl, ((parse fsPrio fsysPrio envPrio ["--port", "3000"]).1).lookupFlag "port" =
        some fl ∧ fl.changed = true ∧
      cliAssignedValue fl.flagType (CliVal.raw "3000") = some fl.value :=
  c1_cli_priority fsPrio fsysPrio envPrio ["--port", "3000"]
    (parse fsPrio fsysPrio envPrio ["--port", "3000"]).1
    (by show ∀ p ∈ fsPrio.flags, (p.2 : Flag).name = p.1
        decide)
    (by rw [← (show (parse fsPrio fsysPrio envPrio ["--port", "3000"]).2 = none by
          simp only [parse, parseArguments_eq_bounded]; decide)])
    "port" (CliVal.raw "3000") (by decide)

end FlashFlags
